import Mathlib

/-!
# go_appeals: appeal lifecycle and its persistence contract

A shallow embedding of `models/appeal.go`, `repository/repository.go`,
`services/appeal_service.go` and the date-range handler of
`internal/handlers/handlers.go`.

Modelling conventions.

* The SQLite table `appeals` is the list of its rows, in insertion (rowid)
  order.  An `UPDATE ... WHERE c` is a map over the rows that rewrites the rows
  satisfying `c`; an `INSERT` appends a row, and is refused when the primary key
  `id` is already present; a `SELECT ... WHERE c` is a filter.
* `time.Time` is an instant counted in nanoseconds from Go's zero time, so the
  zero value of `time.Time` is `0`.  Every call of `time.Now()` is an explicit
  argument: a function that reads the clock twice takes two readings.
* `uuid.New()` is an explicit argument, sixteen random bytes.
* A Go `error` is its message; `(T, error)` is `Except String T` and a bare
  `error` is `Option String`.  Connection and I/O failures of the database are
  not modelled; the uniqueness constraint of the primary key is.
* The fields of an appeal keep the instant of a `time.Time`.  The driver binds a
  `time.Time` as text, in the layout "2006-01-02 15:04:05.999999999-07:00" and
  in the zone the value carries, and SQLite compares such texts bytewise
  (`created_at BETWEEN ? AND ?`); this text and this comparison are modelled.
  A value read from the clock carries the zone of `time.Local`, given as an
  explicit `Location`; the bounds of a range query carry their own zone.
* Pointer receivers are passed by value and the state of the repository is
  threaded through: every operation returns its result together with the table
  it leaves behind.
-/

namespace GoAppeals

/-! ## models/appeal.go -/

/-- Instants of `time.Time`, in nanoseconds from the zero time. -/
abbrev Time := Int

/-- The zero value of `time.Time`. -/
def zeroTime : Time := 0

/-- `type AppealStatus string`. -/
abbrev AppealStatus := String

def StatusNew : AppealStatus := "New"
def StatusInProgress : AppealStatus := "InProgress"
def StatusCompleted : AppealStatus := "Completed"
def StatusCancelled : AppealStatus := "Cancelled"

/-- `type Appeal struct`. -/
structure Appeal where
  ID : String
  Theme : String
  Message : String
  Status : AppealStatus
  Solution : String
  CanselReason : String
  CreatedAt : Time
  UpdatedAt : Time
deriving DecidableEq, Repr

/-- `type CreateAppealRequest struct`. -/
structure CreateAppealRequest where
  Theme : String
  Message : String
deriving DecidableEq, Repr

/-- `type UpdateAppealSolutionRequest struct`. -/
structure UpdateAppealSolutionRequest where
  Solution : String
deriving DecidableEq, Repr

def Appeal.IsNew (a : Appeal) : Bool :=
  decide (a.Status = StatusNew)

def Appeal.IsInProgress (a : Appeal) : Bool :=
  decide (a.Status = StatusInProgress)

def Appeal.IsCompleted (a : Appeal) : Bool :=
  decide (a.Status = StatusCompleted)

def Appeal.IsCancelled (a : Appeal) : Bool :=
  decide (a.Status = StatusCancelled)

def Appeal.CanStartProcessing (a : Appeal) : Bool :=
  decide (a.Status = StatusNew) || decide (a.Status = StatusCancelled)

def Appeal.CanComplete (a : Appeal) : Bool :=
  decide (a.Status = StatusInProgress)

def Appeal.CanCancel (a : Appeal) : Bool :=
  decide (a.Status = StatusNew) || decide (a.Status = StatusInProgress)

/-! ## github.com/google/uuid (the part `Save` uses) -/

/-- A UUID: `type UUID [16]byte`. -/
structure UUID where
  bytes : List (Fin 256)
  size : bytes.length = 16

/-- The digits of `encoding/hex`. -/
def hextable : List Char := "0123456789abcdef".toList

/-- `hex.Encode`: two lower-case digits per byte, high nibble first. -/
def hexEncode (src : List (Fin 256)) : List Char :=
  src.flatMap (fun v => [hextable.getD (v.val / 16) '0', hextable.getD (v.val % 16) '0'])

/-- `encodeHex`: the canonical form xxxxxxxx-xxxx-xxxx-xxxx-xxxxxxxxxxxx. -/
def encodeHex (u : UUID) : List Char :=
  hexEncode (u.bytes.take 4) ++ '-' ::
    (hexEncode ((u.bytes.drop 4).take 2) ++ '-' ::
      (hexEncode ((u.bytes.drop 6).take 2) ++ '-' ::
        (hexEncode ((u.bytes.drop 8).take 2) ++ '-' ::
          hexEncode (u.bytes.drop 10))))

/-- `func (uuid UUID) String() string`. -/
def UUID.String (u : UUID) : String :=
  String.mk (encodeHex u)

/-! ## package time, and the text the SQLite driver binds for a `time.Time` -/

/-- `time.Second`, in nanoseconds. -/
def Second : Int := 1000000000

/-- `time.Minute`. -/
def Minute : Int := 60 * Second

/-- `time.Hour`. -/
def Hour : Int := 60 * Minute

/-- `*time.Location`, as far as formatting needs it: the offset, in seconds east
of UTC, that the zone has at an instant. -/
abbrev Location := Time → Int

/-- `time.UTC`. -/
def UTC : Location := fun _ => 0

/-- `time.FixedZone`: the same offset at every instant. -/
def FixedZone (offset : Int) : Location := fun _ => offset

/-- A `time.Time` as it is handed to the driver: the instant and the offset, in
seconds east of UTC, of the zone the value carries. -/
structure BoundTime where
  instant : Time
  offset : Int
deriving DecidableEq, Repr

/-- The first instant of the year 10000 (UTC): from there on the year is
written with more than four digits. -/
def endOfYear9999 : Time := 3652059 * 24 * Hour

/-- The decimal digit `d`, as a character. -/
def digitChar (d : Nat) : Char := "0123456789".toList.getD d '0'

/-- The last `width` decimal digits of `n`, most significant first. -/
def lowDigits : Nat → Nat → List Char
  | 0, _ => []
  | k + 1, n => digitChar (n / 10 ^ k % 10) :: lowDigits k n

/-- `appendInt` of package time: the decimal text of `x`, padded with zeros to
`width` digits, after a minus sign when `x` is negative. -/
def appendInt (x : Int) (width : Nat) : List Char :=
  (if x < 0 then ['-'] else []) ++
    (if x.natAbs < 10 ^ width then lowDigits width x.natAbs else Nat.toDigits 10 x.natAbs)

/-- `isLeap` of package time. -/
def isLeap (year : Int) : Bool :=
  decide (year % 4 = 0 ∧ (year % 100 ≠ 0 ∨ year % 400 = 0))

/-- The year within a cycle of 400 years, counted from 0, and the day within that
year, counted from 0, of a day of the cycle: 100-year, 4-year and 1-year
cycles are cut off in turn, as in `absDate` of package time. -/
def eraDate (doe : Nat) : Nat × Nat :=
  let n100 := doe / 36524
  let n100 := n100 - n100 / 4
  let d := doe - 36524 * n100
  let n4 := d / 1461
  let d := d % 1461
  let n1 := d / 365
  let n1 := n1 - n1 / 4
  (100 * n100 + 4 * n4 + n1, d - 365 * n1)

/-- The year and the day within the year (from 0) of a day counted from
January 1 of the year 1, in the proleptic Gregorian calendar. -/
def absDate (days : Int) : Int × Nat :=
  let era := days / 146097
  let date := eraDate (days % 146097).toNat
  (400 * era + date.1 + 1, date.2)

/-- The month and the day of the month (both from 1) of a day within the year. -/
def monthDay (leap : Bool) (yday : Nat) : Nat × Nat :=
  let l := if leap then 1 else 0
  if yday < 31 then (1, yday + 1)
  else if yday < 59 + l then (2, yday - 31 + 1)
  else if yday < 90 + l then (3, yday - (59 + l) + 1)
  else if yday < 120 + l then (4, yday - (90 + l) + 1)
  else if yday < 151 + l then (5, yday - (120 + l) + 1)
  else if yday < 181 + l then (6, yday - (151 + l) + 1)
  else if yday < 212 + l then (7, yday - (181 + l) + 1)
  else if yday < 243 + l then (8, yday - (212 + l) + 1)
  else if yday < 273 + l then (9, yday - (243 + l) + 1)
  else if yday < 304 + l then (10, yday - (273 + l) + 1)
  else if yday < 334 + l then (11, yday - (304 + l) + 1)
  else (12, yday - (334 + l) + 1)

/-- A text without its trailing zeros. -/
def trimZeros : List Char → List Char
  | [] => []
  | c :: l => if trimZeros l = [] ∧ c = '0' then [] else c :: trimZeros l

/-- The layout element ".999999999": nothing for a whole second, otherwise the
point and the nine digits of the nanoseconds without trailing zeros. -/
def appendNano (nanosec : Nat) : List Char :=
  if nanosec = 0 then [] else '.' :: trimZeros (lowDigits 9 nanosec)

/-- The layout element "-07:00": sign, hours and minutes of the offset. -/
def zoneText (offset : Int) : List Char :=
  let zone := Int.tdiv offset 60
  (if zone < 0 then '-' else '+') ::
    (lowDigits 2 (zone.natAbs / 60) ++ ':' :: lowDigits 2 (zone.natAbs % 60))

/-- The layout elements "2006-01-02 15:04:05" for a wall time given in seconds
from the zero time. -/
def wallText (sec : Int) : List Char :=
  let date := absDate (sec / 86400)
  let md := monthDay (isLeap date.1) date.2
  let sod := (sec % 86400).toNat
  appendInt date.1 4 ++ '-' :: (lowDigits 2 md.1 ++ '-' :: (lowDigits 2 md.2 ++ Char.ofNat 32 ::
    (lowDigits 2 (sod / 3600) ++ ':' :: (lowDigits 2 (sod % 3600 / 60) ++ ':' ::
      lowDigits 2 (sod % 60)))))

/-- The text the driver binds for a `time.Time`:
`v.Format("2006-01-02 15:04:05.999999999-07:00")`. -/
def sqliteTimestamp (t : BoundTime) : List Char :=
  wallText (t.instant / Second + t.offset) ++
    (appendNano (t.instant % Second).toNat ++ zoneText t.offset)

/-- The order of SQLite on TEXT values (collation BINARY): bytewise, a proper
prefix first. -/
def textLE : List Char → List Char → Bool
  | [], _ => true
  | _ :: _, [] => false
  | a :: as, b :: bs =>
    if a.toNat < b.toNat then true
    else if b.toNat < a.toNat then false
    else textLE as bs

/-- The text `p` comes strictly before the text `q`, whatever follows them. -/
def Below (p q : List Char) : Prop :=
  ∀ x y, textLE (p ++ x) (q ++ y) = true ∧ textLE (q ++ y) (p ++ x) = false

/-! ## repository/repository.go -/

/-- The table `appeals` behind `AppealRepository.db`: its rows in rowid order. -/
abbrev AppealRepository := List Appeal

/-- The message SQLite gives when an `INSERT` repeats a primary key. -/
def uniqueConstraintFailed : String := "UNIQUE constraint failed: appeals.id"

/-- `func (r *AppealRepository) Save`: stamps the id and both timestamps (the
clock is read twice), then inserts the row. -/
def AppealRepository.Save (r : AppealRepository) (u : UUID) (now1 now2 : Time)
    (appeal : Appeal) : Except String Appeal × AppealRepository :=
  let appeal := { appeal with ID := u.String, CreatedAt := now1, UpdatedAt := now2 }
  if r.any (fun row => decide (row.ID = appeal.ID)) then
    (.error ("failed to execute save statement: " ++ uniqueConstraintFailed), r)
  else
    (.ok appeal, r ++ [appeal])

/-- The statement of `Update`:
`UPDATE appeals SET theme, message, status, solution, cansel_reason, updated_at WHERE id`. -/
def updateRows (r : AppealRepository) (appeal : Appeal) : AppealRepository :=
  r.map (fun row =>
    if row.ID = appeal.ID then
      { row with
        Theme := appeal.Theme
        Message := appeal.Message
        Status := appeal.Status
        Solution := appeal.Solution
        CanselReason := appeal.CanselReason
        UpdatedAt := appeal.UpdatedAt }
    else row)

/-- `result.RowsAffected()` of the statement of `Update`. -/
def rowsAffected (r : AppealRepository) (appeal : Appeal) : Nat :=
  r.countP (fun row => decide (row.ID = appeal.ID))

/-- `func (r *AppealRepository) Update`: the statement is executed first and the
number of affected rows is inspected afterwards. -/
def AppealRepository.Update (r : AppealRepository) (now : Time) (appeal : Appeal) :
    Except String Appeal × AppealRepository :=
  let appeal := { appeal with UpdatedAt := now }
  let r' := updateRows r appeal
  if rowsAffected r appeal = 0 then
    (.error ("appeal with ID " ++ appeal.ID ++ " not found for update"), r')
  else
    (.ok appeal, r')

/-- `func (r *AppealRepository) FindByID`: `QueryRow` yields the first matching
row, or `sql.ErrNoRows`. -/
def AppealRepository.FindByID (r : AppealRepository) (id : String) : Except String Appeal :=
  match r.find? (fun row => decide (row.ID = id)) with
  | none => .error ("appeal with ID " ++ id ++ " not found")
  | some row => .ok row

/-- `func (r *AppealRepository) GetAll`. -/
def AppealRepository.GetAll (r : AppealRepository) : Except String (List Appeal) :=
  .ok r

/-- `func (r *AppealRepository) CancelInProgressAppeals`:
`UPDATE appeals SET status = Cancelled, updated_at = now WHERE status IN (New, InProgress)`. -/
def AppealRepository.CancelInProgressAppeals (r : AppealRepository) (now : Time) :
    Option String × AppealRepository :=
  (none, r.map (fun row =>
    if row.Status = StatusNew ∨ row.Status = StatusInProgress then
      { row with Status := StatusCancelled, UpdatedAt := now }
    else row))

/-- `func (r *AppealRepository) SelectAppealsByDates`:
`SELECT ... FROM appeals WHERE created_at BETWEEN start AND end`, rows in rowid
order.  The stored `created_at` is the text bound by `Save` for its first clock
reading, which carries the zone `loc` of `time.Local`; the two bounds are bound
as texts in their own zones; `BETWEEN` compares the texts, both ends included. -/
def AppealRepository.SelectAppealsByDates (loc : Location) (r : AppealRepository)
    (start endT : BoundTime) : Except String (List Appeal) :=
  .ok (r.filter (fun row =>
    textLE (sqliteTimestamp start) (sqliteTimestamp ⟨row.CreatedAt, loc row.CreatedAt⟩) &&
    textLE (sqliteTimestamp ⟨row.CreatedAt, loc row.CreatedAt⟩) (sqliteTimestamp endT)))

/-! ## services/appeal_service.go -/

/-- `func (s *AppealService) CreateAppeal`. -/
def AppealService.CreateAppeal (repo : AppealRepository) (u : UUID) (now1 now2 : Time)
    (req : CreateAppealRequest) : Except String Appeal × AppealRepository :=
  let appeal : Appeal :=
    { ID := "", Theme := req.Theme, Message := req.Message, Status := StatusNew,
      Solution := "", CanselReason := "", CreatedAt := zeroTime, UpdatedAt := zeroTime }
  if appeal.Theme = "" ∨ appeal.Message = "" then
    (.error "theme and message are required", repo)
  else
    match AppealRepository.Save repo u now1 now2 appeal with
    | (.error err, repo') => (.error ("failed to save appeal: " ++ err), repo')
    | (.ok savedAppeal, repo') => (.ok savedAppeal, repo')

/-- `func (s *AppealService) StartProcessing`. -/
def AppealService.StartProcessing (repo : AppealRepository) (now : Time) (id : String) :
    Except String Appeal × AppealRepository :=
  match AppealRepository.FindByID repo id with
  | .error err => (.error err, repo)
  | .ok appeal =>
    if !appeal.CanStartProcessing then
      (.error ("cannot start processing appeal with status: " ++ appeal.Status), repo)
    else
      let appeal := { appeal with Status := StatusInProgress }
      match AppealRepository.Update repo now appeal with
      | (.error err, repo') => (.error err, repo')
      | (.ok updatedAppeal, repo') => (.ok updatedAppeal, repo')

/-- `func (s *AppealService) CancelAppeal`. -/
def AppealService.CancelAppeal (repo : AppealRepository) (now : Time) (id : String) :
    Option String × AppealRepository :=
  match AppealRepository.FindByID repo id with
  | .error err => (some err, repo)
  | .ok appeal =>
    if !appeal.CanCancel then
      (some ("cannot cancel appeal with status: " ++ appeal.Status), repo)
    else
      let appeal := { appeal with Status := StatusCancelled }
      match AppealRepository.Update repo now appeal with
      | (.error err, repo') => (some err, repo')
      | (.ok _, repo') => (none, repo')

/-- `func (s *AppealService) CancelAllInProgress`. -/
def AppealService.CancelAllInProgress (repo : AppealRepository) (now : Time) :
    Option String × AppealRepository :=
  AppealRepository.CancelInProgressAppeals repo now

/-- `func (s *AppealService) CompleteAppeal`. -/
def AppealService.CompleteAppeal (repo : AppealRepository) (now : Time) (id : String)
    (req : UpdateAppealSolutionRequest) : Except String Appeal × AppealRepository :=
  match AppealRepository.FindByID repo id with
  | .error err => (.error err, repo)
  | .ok appeal =>
    if !appeal.CanComplete then
      (.error ("cannot complete appeal with status: " ++ appeal.Status), repo)
    else
      let appeal := { appeal with Status := StatusCompleted, Solution := req.Solution }
      match AppealRepository.Update repo now appeal with
      | (.error err, repo') => (.error err, repo')
      | (.ok updatedAppeal, repo') => (.ok updatedAppeal, repo')

/-- `func (s *AppealService) GetAppealsByDates`. -/
def AppealService.GetAppealsByDates (loc : Location) (repo : AppealRepository)
    (start endT : BoundTime) : Except String (List Appeal) :=
  AppealRepository.SelectAppealsByDates loc repo start endT

/-! ## internal/handlers/handlers.go (the date-range handler) -/

/-- What a handler sends back: the status code with the error text, or the
appeals of a 200 answer. -/
inductive Response where
  | StatusBadRequest (error : String)
  | StatusInternalServerError (error : String)
  | StatusOK (appeals : List Appeal)
deriving DecidableEq, Repr

/-- `func (h *Handlers) GetAppealsByDates`, given the two query parameters.
`timeParse` stands for `time.Parse` with the layout "2006-01-02", which yields
the instant of the midnight of the day it reads, as a time in UTC; `Add` keeps
the zone. -/
def Handlers.GetAppealsByDates (loc : Location) (timeParse : String → Except String Time)
    (repo : AppealRepository) (startStr endStr : String) : Response :=
  if startStr = "" ∨ endStr = "" then
    .StatusBadRequest "startDate and endDate are required"
  else
    match timeParse startStr with
    | .error _ => .StatusBadRequest "Invalid startDate format, use YYYY-MM-DD"
    | .ok start =>
      match timeParse endStr with
      | .error _ => .StatusBadRequest "Invalid endDate format, use YYYY-MM-DD"
      | .ok endT =>
        let endT := endT + (23 * Hour + 59 * Minute + 59 * Second)
        match AppealService.GetAppealsByDates loc repo ⟨start, 0⟩ ⟨endT, 0⟩ with
        | .error err => .StatusInternalServerError err
        | .ok appeals => .StatusOK appeals

/-! ## Sequences of service calls -/

/-- One call of a mutating operation of `AppealService`, with the values it
draws from its environment (clock readings, generated UUID). -/
inductive ServiceCall where
  | CreateAppeal (u : UUID) (now1 now2 : Time) (req : CreateAppealRequest)
  | StartProcessing (now : Time) (id : String)
  | CompleteAppeal (now : Time) (id : String) (req : UpdateAppealSolutionRequest)
  | CancelAppeal (now : Time) (id : String)
  | CancelAllInProgress (now : Time)

/-- The table a service call leaves behind. -/
def ServiceCall.exec (repo : AppealRepository) : ServiceCall → AppealRepository
  | .CreateAppeal u now1 now2 req => (AppealService.CreateAppeal repo u now1 now2 req).2
  | .StartProcessing now id => (AppealService.StartProcessing repo now id).2
  | .CompleteAppeal now id req => (AppealService.CompleteAppeal repo now id req).2
  | .CancelAppeal now id => (AppealService.CancelAppeal repo now id).2
  | .CancelAllInProgress now => (AppealService.CancelAllInProgress repo now).2

/-- The clock readings of a service call, in the order they are taken. -/
def ServiceCall.readings : ServiceCall → List Time
  | .CreateAppeal _ now1 now2 _ => [now1, now2]
  | .StartProcessing now _ => [now]
  | .CompleteAppeal now _ _ => [now]
  | .CancelAppeal now _ => [now]
  | .CancelAllInProgress now => [now]

/-- The table left by a sequence of service calls, run one after another. -/
def runCalls (repo : AppealRepository) (calls : List ServiceCall) : AppealRepository :=
  calls.foldl ServiceCall.exec repo

/-- The primary key of the schema: no two rows share an id. -/
def PrimaryKey (repo : AppealRepository) : Prop :=
  (repo.map (fun row => row.ID)).Nodup

instance (repo : AppealRepository) : Decidable (PrimaryKey repo) :=
  List.nodupDecidable (List.map (fun (row : Appeal) => row.ID) repo)

/-- The edges of the lifecycle: New to InProgress, Cancelled to InProgress,
InProgress to Completed, New to Cancelled, InProgress to Cancelled. -/
def LifecycleEdge (s t : AppealStatus) : Prop :=
  (s = StatusNew ∧ t = StatusInProgress) ∨
  (s = StatusCancelled ∧ t = StatusInProgress) ∨
  (s = StatusInProgress ∧ t = StatusCompleted) ∨
  (s = StatusNew ∧ t = StatusCancelled) ∨
  (s = StatusInProgress ∧ t = StatusCancelled)

instance (s t : AppealStatus) : Decidable (LifecycleEdge s t) :=
  inferInstanceAs (Decidable (
    (s = StatusNew ∧ t = StatusInProgress) ∨
    (s = StatusCancelled ∧ t = StatusInProgress) ∨
    (s = StatusInProgress ∧ t = StatusCompleted) ∨
    (s = StatusNew ∧ t = StatusCancelled) ∨
    (s = StatusInProgress ∧ t = StatusCancelled)))

/-! ## Rows written by the statements -/

/-- The row written by the statement of `Update` in place of a matching row. -/
def overwrite (appeal row : Appeal) : Appeal :=
  { row with
    Theme := appeal.Theme
    Message := appeal.Message
    Status := appeal.Status
    Solution := appeal.Solution
    CanselReason := appeal.CanselReason
    UpdatedAt := appeal.UpdatedAt }

/-- The row `Save` inserts for a request of `CreateAppeal`. -/
def createdRow (u : UUID) (now1 now2 : Time) (req : CreateAppealRequest) : Appeal :=
  { ID := u.String, Theme := req.Theme, Message := req.Message, Status := StatusNew,
    Solution := "", CanselReason := "", CreatedAt := now1, UpdatedAt := now2 }

/-- The row written by the statement of `CancelInProgressAppeals` for a row. -/
def cancelRow (now : Time) (row : Appeal) : Appeal :=
  if row.Status = StatusNew ∨ row.Status = StatusInProgress then
    { row with Status := StatusCancelled, UpdatedAt := now }
  else row

/-! ## Examples used by the concrete checks -/

/-- A row with the given id and status, all other fields fixed. -/
def sampleRow (id : String) (status : AppealStatus) : Appeal :=
  { ID := id, Theme := "t", Message := "m", Status := status,
    Solution := "", CanselReason := "", CreatedAt := 5, UpdatedAt := 5 }

/-- The all-zero UUID. -/
def nilUUID : UUID := ⟨List.replicate 16 0, rfl⟩

/-- A table holding one row in each of the four statuses. -/
def sampleRepo : AppealRepository :=
  [sampleRow "a" "New", sampleRow "b" "InProgress", sampleRow "c" "Completed",
    sampleRow "d" "Cancelled"]

/-- The UUID whose bytes are all 1. -/
def oneUUID : UUID := ⟨List.replicate 16 1, rfl⟩

/-- The text "0001-01-01" read as the zero time, any other text refused. -/
def sampleParse (s : String) : Except String Time :=
  if s = "0001-01-01" then .ok 0 else .error "parsing time"

/-- An appeal as the repository test builds it, created at `t`. -/
def testAppeal (t : Time) : Appeal :=
  { ID := "", Theme := "Test theme", Message := "Test message", Status := "open",
    Solution := "Test solution", CanselReason := "Test reason", CreatedAt := t,
    UpdatedAt := t }

/-- A short history: an appeal is created at the readings 1 and 2, started at
3, and the bulk cancellation runs at 4. -/
def sampleCalls : List ServiceCall :=
  [.CreateAppeal nilUUID 1 2 ⟨"t", "m"⟩, .StartProcessing 3 nilUUID.String,
    .CancelAllInProgress 4]

/-! ## Facts about the repository -/

theorem updateRows_eq (r : AppealRepository) (appeal : Appeal) :
    updateRows r appeal =
      r.map (fun row => if row.ID = appeal.ID then overwrite appeal row else row) := rfl

theorem FindByID_ok_iff (r : AppealRepository) (id : String) (row : Appeal) :
    AppealRepository.FindByID r id = .ok row ↔
      r.find? (fun x => decide (x.ID = id)) = some row := by
  unfold AppealRepository.FindByID
  split
  · next h => simp [h]
  · next x h => simp [h]

theorem FindByID_error_iff (r : AppealRepository) (id : String) :
    AppealRepository.FindByID r id = .error ("appeal with ID " ++ id ++ " not found") ↔
      ∀ row ∈ r, row.ID ≠ id := by
  unfold AppealRepository.FindByID
  split
  · next h => simpa using h
  · next row h =>
    have h1 := List.find?_some h
    have h2 := List.mem_of_find?_eq_some h
    simp only [decide_eq_true_eq] at h1
    constructor
    · intro hc; cases hc
    · intro hc; exact absurd h1 (hc row h2)

theorem FindByID_ok_mem {r : AppealRepository} {id : String} {row : Appeal}
    (h : AppealRepository.FindByID r id = .ok row) : row ∈ r ∧ row.ID = id := by
  rw [FindByID_ok_iff] at h
  exact ⟨List.mem_of_find?_eq_some h, by simpa using List.find?_some h⟩

/-- An id is held in the table exactly when `FindByID` returns a row for it. -/
theorem held_iff_FindByID_ok (r : AppealRepository) (id : String) :
    (∃ row ∈ r, row.ID = id) ↔ ∃ row, AppealRepository.FindByID r id = .ok row := by
  constructor
  · rintro ⟨row, hmem, hid⟩
    cases hf : AppealRepository.FindByID r id with
    | ok found => exact ⟨found, rfl⟩
    | error e =>
      exfalso
      unfold AppealRepository.FindByID at hf
      split at hf
      · next hnone =>
        have := List.find?_eq_none.mp hnone row hmem
        simp [hid] at this
      · cases hf
  · rintro ⟨row, h⟩
    exact ⟨row, FindByID_ok_mem h⟩

theorem rowsAffected_ne_zero {r : AppealRepository} {appeal row : Appeal}
    (hmem : row ∈ r) (hid : row.ID = appeal.ID) : rowsAffected r appeal ≠ 0 := by
  unfold rowsAffected
  intro h
  rw [List.countP_eq_zero] at h
  exact h row hmem (by simpa using hid)

theorem rowsAffected_eq_zero {r : AppealRepository} {appeal : Appeal}
    (h : ∀ row ∈ r, row.ID ≠ appeal.ID) : rowsAffected r appeal = 0 := by
  unfold rowsAffected
  rw [List.countP_eq_zero]
  intro row hmem
  simpa using h row hmem

theorem updateRows_of_absent {r : AppealRepository} {appeal : Appeal}
    (h : ∀ row ∈ r, row.ID ≠ appeal.ID) : updateRows r appeal = r := by
  rw [updateRows_eq]
  conv_rhs => rw [← List.map_id r]
  apply List.map_congr_left
  intro row hmem
  simp [h row hmem]

theorem ite_overwrite_ID (appeal row : Appeal) :
    (if row.ID = appeal.ID then overwrite appeal row else row).ID = row.ID := by
  split <;> rfl

/-- Looking a row up by id after the statement of `Update`: the first row with
that id, overwritten when the id is the updated one. -/
theorem find_updateRows (r : AppealRepository) (appeal : Appeal) (id : String) :
    (updateRows r appeal).find? (fun x => decide (x.ID = id)) =
      (r.find? (fun x => decide (x.ID = id))).map
        (fun row => if row.ID = appeal.ID then overwrite appeal row else row) := by
  rw [updateRows_eq]
  induction r with
  | nil => rfl
  | cons x xs ih =>
    simp only [List.map_cons, List.find?_cons, ite_overwrite_ID]
    cases decide (x.ID = id) with
    | true => rfl
    | false => exact ih

theorem FindByID_updateRows {r : AppealRepository} {appeal row : Appeal}
    (h : AppealRepository.FindByID r appeal.ID = .ok row) :
    AppealRepository.FindByID (updateRows r appeal) appeal.ID = .ok (overwrite appeal row) := by
  have hid := (FindByID_ok_mem h).2
  rw [FindByID_ok_iff] at h ⊢
  rw [find_updateRows, h]
  simp [hid]

/-- `Update` of an appeal whose id is held: it succeeds, returns the appeal with
the fresh `UpdatedAt`, and leaves the rewritten table. -/
theorem Update_of_held {r : AppealRepository} {row : Appeal} (now : Time) (appeal : Appeal)
    (hmem : row ∈ r) (hid : row.ID = appeal.ID) :
    AppealRepository.Update r now appeal =
      (.ok { appeal with UpdatedAt := now }, updateRows r { appeal with UpdatedAt := now }) := by
  unfold AppealRepository.Update
  have h : rowsAffected r { appeal with UpdatedAt := now } ≠ 0 :=
    rowsAffected_ne_zero hmem (by simpa using hid)
  simp [h]

/-! ## Facts about the single-appeal transitions -/

theorem StartProcessing_of_found {repo : AppealRepository} {id : String} {row : Appeal}
    (now : Time) (h : AppealRepository.FindByID repo id = .ok row) :
    AppealService.StartProcessing repo now id =
      if row.CanStartProcessing = true then
        (.ok { row with Status := StatusInProgress, UpdatedAt := now },
          updateRows repo { row with Status := StatusInProgress, UpdatedAt := now })
      else
        (.error ("cannot start processing appeal with status: " ++ row.Status), repo) := by
  have hm := FindByID_ok_mem h
  unfold AppealService.StartProcessing
  rw [h]
  by_cases hc : row.CanStartProcessing = true
  · simp [hc, Update_of_held now { row with Status := StatusInProgress } hm.1 rfl]
  · simp [hc]

theorem CompleteAppeal_of_found {repo : AppealRepository} {id : String} {row : Appeal}
    (now : Time) (req : UpdateAppealSolutionRequest)
    (h : AppealRepository.FindByID repo id = .ok row) :
    AppealService.CompleteAppeal repo now id req =
      if row.CanComplete = true then
        (.ok { row with Status := StatusCompleted, Solution := req.Solution, UpdatedAt := now },
          updateRows repo
            { row with Status := StatusCompleted, Solution := req.Solution, UpdatedAt := now })
      else
        (.error ("cannot complete appeal with status: " ++ row.Status), repo) := by
  have hm := FindByID_ok_mem h
  unfold AppealService.CompleteAppeal
  rw [h]
  by_cases hc : row.CanComplete = true
  · simp [hc, Update_of_held now
      { row with Status := StatusCompleted, Solution := req.Solution } hm.1 rfl]
  · simp [hc]

theorem CancelAppeal_of_found {repo : AppealRepository} {id : String} {row : Appeal}
    (now : Time) (h : AppealRepository.FindByID repo id = .ok row) :
    AppealService.CancelAppeal repo now id =
      if row.CanCancel = true then
        (none, updateRows repo { row with Status := StatusCancelled, UpdatedAt := now })
      else
        (some ("cannot cancel appeal with status: " ++ row.Status), repo) := by
  have hm := FindByID_ok_mem h
  unfold AppealService.CancelAppeal
  rw [h]
  by_cases hc : row.CanCancel = true
  · simp [hc, Update_of_held now { row with Status := StatusCancelled } hm.1 rfl]
  · simp [hc]

theorem CanStartProcessing_iff (a : Appeal) :
    a.CanStartProcessing = true ↔ a.Status = StatusNew ∨ a.Status = StatusCancelled := by
  simp [Appeal.CanStartProcessing]

theorem CanComplete_iff (a : Appeal) :
    a.CanComplete = true ↔ a.Status = StatusInProgress := by
  simp [Appeal.CanComplete]

theorem CanCancel_iff (a : Appeal) :
    a.CanCancel = true ↔ a.Status = StatusNew ∨ a.Status = StatusInProgress := by
  simp [Appeal.CanCancel]

/-- The row found under the id of an appeal after that appeal was written by the
statement of `Update` carries the written fields. -/
theorem FindByID_after_update {repo : AppealRepository} {id : String} {row appeal : Appeal}
    (h : AppealRepository.FindByID repo id = .ok row) (hid : appeal.ID = id) :
    AppealRepository.FindByID (updateRows repo appeal) id = .ok (overwrite appeal row) := by
  subst hid
  exact FindByID_updateRows h

/-! ## Facts about identifiers and creation -/

theorem hexEncode_length (src : List (Fin 256)) : (hexEncode src).length = 2 * src.length := by
  induction src with
  | nil => rfl
  | cons v vs ih =>
    simp only [hexEncode, List.flatMap_cons, List.length_append, List.length_cons,
      List.length_nil] at ih ⊢
    omega

/-- The text of a UUID has 36 characters. -/
theorem UUID_String_length (u : UUID) : u.String.length = 36 := by
  have h := u.size
  show (encodeHex u).length = 36
  simp only [encodeHex, List.length_append, List.length_cons, hexEncode_length,
    List.length_take, List.length_drop, h]
  omega

theorem UUID_String_ne_empty (u : UUID) : u.String ≠ "" := by
  intro h
  have hl := UUID_String_length u
  rw [h] at hl
  exact absurd hl (by decide)

theorem CreateAppeal_of_empty (repo : AppealRepository) (u : UUID) (now1 now2 : Time)
    (req : CreateAppealRequest) (h : req.Theme = "" ∨ req.Message = "") :
    AppealService.CreateAppeal repo u now1 now2 req =
      (.error "theme and message are required", repo) := by
  unfold AppealService.CreateAppeal
  simp only [h, if_true]

theorem CreateAppeal_of_fresh (repo : AppealRepository) (u : UUID) (now1 now2 : Time)
    (req : CreateAppealRequest) (h : ¬ (req.Theme = "" ∨ req.Message = ""))
    (hfresh : ∀ row ∈ repo, row.ID ≠ u.String) :
    AppealService.CreateAppeal repo u now1 now2 req =
      (.ok (createdRow u now1 now2 req), repo ++ [createdRow u now1 now2 req]) := by
  have hany : (repo.any fun row => decide (row.ID = u.String)) = false := by
    rw [List.any_eq_false]
    intro row hmem
    simpa using hfresh row hmem
  unfold AppealService.CreateAppeal AppealRepository.Save
  simp only [h, if_false, hany]
  rfl

theorem CreateAppeal_of_clash (repo : AppealRepository) (u : UUID) (now1 now2 : Time)
    (req : CreateAppealRequest) (h : ¬ (req.Theme = "" ∨ req.Message = ""))
    (hclash : ¬ ∀ row ∈ repo, row.ID ≠ u.String) :
    AppealService.CreateAppeal repo u now1 now2 req =
      (.error ("failed to save appeal: " ++
        ("failed to execute save statement: " ++ uniqueConstraintFailed)), repo) := by
  have hany : (repo.any fun row => decide (row.ID = u.String)) = true := by
    rw [List.any_eq_true]
    push_neg at hclash
    obtain ⟨row, hmem, hid⟩ := hclash
    exact ⟨row, hmem, by simpa using hid⟩
  unfold AppealService.CreateAppeal AppealRepository.Save
  simp only [h, if_false, hany]
  rfl

/-! ## Facts about the bulk cancellation -/

theorem CancelAllInProgress_eq (repo : AppealRepository) (now : Time) :
    AppealService.CancelAllInProgress repo now = (none, repo.map (cancelRow now)) := rfl

theorem cancelRow_ID (now : Time) (row : Appeal) : (cancelRow now row).ID = row.ID := by
  unfold cancelRow
  split <;> rfl

/-- After the statement no row is New or InProgress. -/
theorem cancelRow_not_active (now : Time) (row : Appeal) :
    ¬ ((cancelRow now row).Status = StatusNew ∨ (cancelRow now row).Status = StatusInProgress) := by
  unfold cancelRow
  split
  · simp [StatusCancelled, StatusNew, StatusInProgress]
  · assumption

theorem cancelRow_cancelRow (t1 t2 : Time) (row : Appeal) :
    cancelRow t2 (cancelRow t1 row) = cancelRow t1 row := by
  have h := cancelRow_not_active t1 row
  generalize cancelRow t1 row = x at h ⊢
  unfold cancelRow
  rw [if_neg h]

/-! ## The lifecycle predicates -/

/-- C1: for an appeal with any status string, `CanStartProcessing` holds exactly
for New and Cancelled, `CanComplete` exactly for InProgress, `CanCancel` exactly
for New and InProgress; for a status outside the four named ones all three are
false. -/
theorem can_methods_spec (a : Appeal) :
    (a.CanStartProcessing = true ↔ a.Status = "New" ∨ a.Status = "Cancelled") ∧
    (a.CanComplete = true ↔ a.Status = "InProgress") ∧
    (a.CanCancel = true ↔ a.Status = "New" ∨ a.Status = "InProgress") ∧
    ((a.Status ≠ "New" ∧ a.Status ≠ "InProgress" ∧ a.Status ≠ "Completed" ∧
        a.Status ≠ "Cancelled") →
      a.CanStartProcessing = false ∧ a.CanComplete = false ∧ a.CanCancel = false) := by
  refine ⟨?_, ?_, ?_, ?_⟩
  · simp [Appeal.CanStartProcessing, StatusNew, StatusCancelled]
  · simp [Appeal.CanComplete, StatusInProgress]
  · simp [Appeal.CanCancel, StatusNew, StatusInProgress]
  · rintro ⟨h1, h2, _, h4⟩
    simp [Appeal.CanStartProcessing, Appeal.CanComplete, Appeal.CanCancel, StatusNew,
      StatusInProgress, StatusCancelled, h1, h2, h4]

/-- A concrete reading of `can_methods_spec`: an appeal with the status "open"
(as in the repository tests) passes none of the three checks, and a New one
may be started and cancelled but not completed. -/
theorem can_methods_spec_witness :
    ((sampleRow "a" "open").CanStartProcessing = false ∧
      (sampleRow "a" "open").CanComplete = false ∧
      (sampleRow "a" "open").CanCancel = false) ∧
    (sampleRow "a" "New").CanStartProcessing = true :=
  ⟨(can_methods_spec (sampleRow "a" "open")).2.2.2 (by decide),
    (can_methods_spec (sampleRow "a" "New")).1.mpr (Or.inl rfl)⟩

/-! ## Single-appeal transitions -/

/-- C2: for an id held in the store, `StartProcessing` succeeds exactly when the
stored appeal is New or Cancelled; on success the returned record and the
stored record have status InProgress; otherwise it fails with the
invalid-transition error.  For an id not in the store it fails with the
not-found error of `FindByID`, unchanged. -/
theorem StartProcessing_spec (repo : AppealRepository) (now : Time) (id : String) :
    (∀ row, AppealRepository.FindByID repo id = .ok row →
      ((∃ a, (AppealService.StartProcessing repo now id).1 = .ok a) ↔
        row.Status = StatusNew ∨ row.Status = StatusCancelled) ∧
      (∀ a, (AppealService.StartProcessing repo now id).1 = .ok a →
        a.Status = StatusInProgress ∧
        ∃ stored,
          AppealRepository.FindByID (AppealService.StartProcessing repo now id).2 id
            = .ok stored ∧
          stored.Status = StatusInProgress) ∧
      (¬ (row.Status = StatusNew ∨ row.Status = StatusCancelled) →
        (AppealService.StartProcessing repo now id).1 =
          .error ("cannot start processing appeal with status: " ++ row.Status))) ∧
    ((∀ row ∈ repo, row.ID ≠ id) →
      AppealRepository.FindByID repo id = .error ("appeal with ID " ++ id ++ " not found") ∧
      (AppealService.StartProcessing repo now id).1 = AppealRepository.FindByID repo id) := by
  constructor
  · intro row h
    have hm := FindByID_ok_mem h
    rw [StartProcessing_of_found now h]
    by_cases hc : row.CanStartProcessing = true
    · have hs := (CanStartProcessing_iff row).mp hc
      simp only [hc, if_true]
      refine ⟨⟨fun _ => hs, fun _ => ⟨_, rfl⟩⟩, ?_, fun hn => absurd hs hn⟩
      intro a ha
      cases ha
      refine ⟨rfl, _, FindByID_after_update h hm.2, rfl⟩
    · have hs : ¬ (row.Status = StatusNew ∨ row.Status = StatusCancelled) :=
        fun hs => hc ((CanStartProcessing_iff row).mpr hs)
      simp only [hc]
      refine ⟨⟨?_, fun hp => absurd hp hs⟩, ?_, fun _ => rfl⟩
      · rintro ⟨a, ha⟩
        cases ha
      · intro a ha
        cases ha
  · intro habs
    have hf := (FindByID_error_iff repo id).mpr habs
    refine ⟨hf, ?_⟩
    unfold AppealService.StartProcessing
    rw [hf]

/-- A concrete reading of `StartProcessing_spec`: in the sample table the New
appeal "a" is started, and the unknown id "zz" is reported as not found. -/
theorem StartProcessing_spec_witness :
    AppealRepository.FindByID sampleRepo "a" = .ok (sampleRow "a" "New") ∧
    ((∃ a, (AppealService.StartProcessing sampleRepo 7 "a").1 = .ok a) ↔
      (sampleRow "a" "New").Status = StatusNew ∨
        (sampleRow "a" "New").Status = StatusCancelled) ∧
    (AppealService.StartProcessing sampleRepo 7 "zz").1 =
      AppealRepository.FindByID sampleRepo "zz" :=
  ⟨rfl, ((StartProcessing_spec sampleRepo 7 "a").1 _ rfl).1,
    ((StartProcessing_spec sampleRepo 7 "zz").2 (by decide)).2⟩

/-- C3: for an id held in the store and any supplied solution, `CompleteAppeal`
succeeds exactly when the stored appeal is InProgress; on success the returned
record and the stored record have status Completed and the supplied solution. -/
theorem CompleteAppeal_spec (repo : AppealRepository) (now : Time) (id : String)
    (req : UpdateAppealSolutionRequest) (row : Appeal)
    (h : AppealRepository.FindByID repo id = .ok row) :
    ((∃ a, (AppealService.CompleteAppeal repo now id req).1 = .ok a) ↔
      row.Status = StatusInProgress) ∧
    (∀ a, (AppealService.CompleteAppeal repo now id req).1 = .ok a →
      a.Status = StatusCompleted ∧ a.Solution = req.Solution ∧
      ∃ stored,
        AppealRepository.FindByID (AppealService.CompleteAppeal repo now id req).2 id
          = .ok stored ∧
        stored.Status = StatusCompleted ∧ stored.Solution = req.Solution) := by
  have hm := FindByID_ok_mem h
  rw [CompleteAppeal_of_found now req h]
  by_cases hc : row.CanComplete = true
  · have hs := (CanComplete_iff row).mp hc
    simp only [hc, if_true]
    refine ⟨⟨fun _ => hs, fun _ => ⟨_, rfl⟩⟩, ?_⟩
    intro a ha
    cases ha
    exact ⟨rfl, rfl, _, FindByID_after_update h hm.2, rfl, rfl⟩
  · have hs : ¬ row.Status = StatusInProgress :=
      fun hs => hc ((CanComplete_iff row).mpr hs)
    simp only [hc]
    refine ⟨⟨?_, fun hp => absurd hp hs⟩, ?_⟩
    · rintro ⟨a, ha⟩
      cases ha
    · intro a ha
      cases ha

/-- A concrete reading of `CompleteAppeal_spec`: in the sample table the
InProgress appeal "b" is completed with the solution "fixed". -/
theorem CompleteAppeal_spec_witness :
    AppealRepository.FindByID sampleRepo "b" = .ok (sampleRow "b" "InProgress") ∧
    ((∃ a, (AppealService.CompleteAppeal sampleRepo 7 "b" ⟨"fixed"⟩).1 = .ok a) ↔
      (sampleRow "b" "InProgress").Status = StatusInProgress) :=
  ⟨rfl, (CompleteAppeal_spec sampleRepo 7 "b" ⟨"fixed"⟩ _ rfl).1⟩

/-- C4: for an id held in the store, `CancelAppeal` succeeds exactly when the
stored appeal is New or InProgress; on success the stored record has status
Cancelled. -/
theorem CancelAppeal_spec (repo : AppealRepository) (now : Time) (id : String)
    (row : Appeal) (h : AppealRepository.FindByID repo id = .ok row) :
    ((AppealService.CancelAppeal repo now id).1 = none ↔
      row.Status = StatusNew ∨ row.Status = StatusInProgress) ∧
    ((AppealService.CancelAppeal repo now id).1 = none →
      ∃ stored,
        AppealRepository.FindByID (AppealService.CancelAppeal repo now id).2 id = .ok stored ∧
        stored.Status = StatusCancelled) := by
  have hm := FindByID_ok_mem h
  rw [CancelAppeal_of_found now h]
  by_cases hc : row.CanCancel = true
  · have hs := (CanCancel_iff row).mp hc
    rw [if_pos hc]
    exact ⟨⟨fun _ => hs, fun _ => rfl⟩, fun _ => ⟨_, FindByID_after_update h hm.2, rfl⟩⟩
  · have hs : ¬ (row.Status = StatusNew ∨ row.Status = StatusInProgress) :=
      fun hs => hc ((CanCancel_iff row).mpr hs)
    rw [if_neg hc]
    refine ⟨⟨?_, fun hp => absurd hp hs⟩, ?_⟩
    · intro ha
      cases ha
    · intro ha
      cases ha

/-- A concrete reading of `CancelAppeal_spec`: in the sample table the Completed
appeal "c" cannot be cancelled. -/
theorem CancelAppeal_spec_witness :
    AppealRepository.FindByID sampleRepo "c" = .ok (sampleRow "c" "Completed") ∧
    ((AppealService.CancelAppeal sampleRepo 7 "c").1 = none ↔
      (sampleRow "c" "Completed").Status = StatusNew ∨
        (sampleRow "c" "Completed").Status = StatusInProgress) :=
  ⟨rfl, (CancelAppeal_spec sampleRepo 7 "c" _ rfl).1⟩

/-! ## Creation -/

/-- C5: `CreateAppeal` fails with the validation error, leaving the store
untouched, exactly when theme or message is empty; a request with both
non-empty (and a generated id not yet in the table) stores and returns a record
with the given theme and message, status New, empty solution, empty cancel
reason and a non-empty generated id. -/
theorem CreateAppeal_spec (repo : AppealRepository) (u : UUID) (now1 now2 : Time)
    (req : CreateAppealRequest) :
    ((AppealService.CreateAppeal repo u now1 now2 req).1 =
        .error "theme and message are required" ↔ req.Theme = "" ∨ req.Message = "") ∧
    ((req.Theme = "" ∨ req.Message = "") →
      AppealService.CreateAppeal repo u now1 now2 req =
        (.error "theme and message are required", repo)) ∧
    (req.Theme ≠ "" → req.Message ≠ "" → (∀ row ∈ repo, row.ID ≠ u.String) →
      ∃ a, AppealService.CreateAppeal repo u now1 now2 req = (.ok a, repo ++ [a]) ∧
        a.Theme = req.Theme ∧ a.Message = req.Message ∧ a.Status = StatusNew ∧
        a.Solution = "" ∧ a.CanselReason = "" ∧ a.ID = u.String ∧ a.ID ≠ "") := by
  refine ⟨⟨?_, fun h => by rw [CreateAppeal_of_empty repo u now1 now2 req h]⟩,
    CreateAppeal_of_empty repo u now1 now2 req, ?_⟩
  · intro herr
    by_contra h
    by_cases hfresh : ∀ row ∈ repo, row.ID ≠ u.String
    · rw [CreateAppeal_of_fresh repo u now1 now2 req h hfresh] at herr
      cases herr
    · rw [CreateAppeal_of_clash repo u now1 now2 req h hfresh] at herr
      exact absurd (Except.error.inj herr) (by decide)
  · intro ht hm hfresh
    have h : ¬ (req.Theme = "" ∨ req.Message = "") := fun hc => hc.elim ht hm
    exact ⟨createdRow u now1 now2 req, CreateAppeal_of_fresh repo u now1 now2 req h hfresh,
      rfl, rfl, rfl, rfl, rfl, rfl, UUID_String_ne_empty u⟩

/-- A concrete reading of `CreateAppeal_spec`: the request ("t", "m") on the
sample table with the all-zero UUID. -/
theorem CreateAppeal_spec_witness :
    ∃ a, AppealService.CreateAppeal sampleRepo nilUUID 1 2 ⟨"t", "m"⟩ =
        (.ok a, sampleRepo ++ [a]) ∧
      a.Theme = "t" ∧ a.Message = "m" ∧ a.Status = StatusNew ∧
      a.Solution = "" ∧ a.CanselReason = "" ∧ a.ID = nilUUID.String ∧ a.ID ≠ "" :=
  (CreateAppeal_spec sampleRepo nilUUID 1 2 ⟨"t", "m"⟩).2.2 (by decide) (by decide)
    (by decide)

/-- C6, as stated, fails: `Save` reads the clock twice, so with the readings 1
and 2 the created record has `CreatedAt` different from `UpdatedAt`. -/
theorem created_timestamps_may_differ :
    ∃ a, (AppealService.CreateAppeal [] nilUUID 1 2 ⟨"t", "m"⟩).1 = .ok a ∧
      a.CreatedAt ≠ a.UpdatedAt :=
  ⟨createdRow nilUUID 1 2 ⟨"t", "m"⟩, rfl, by decide⟩

/-- C6, amended: for a request with both fields non-empty, the record produced
by `CreateAppeal` has `CreatedAt` equal to the first clock reading of `Save` and
`UpdatedAt` equal to the second; so the two are equal exactly when the readings
coincide, and `CreatedAt <= UpdatedAt` when the clock did not go back. -/
theorem CreateAppeal_timestamps (repo : AppealRepository) (u : UUID) (now1 now2 : Time)
    (req : CreateAppealRequest) (a : Appeal) (ht : req.Theme ≠ "") (hm : req.Message ≠ "")
    (hok : (AppealService.CreateAppeal repo u now1 now2 req).1 = .ok a) :
    a.CreatedAt = now1 ∧ a.UpdatedAt = now2 ∧
    (a.CreatedAt = a.UpdatedAt ↔ now1 = now2) ∧
    (now1 ≤ now2 → a.CreatedAt ≤ a.UpdatedAt) := by
  have h : ¬ (req.Theme = "" ∨ req.Message = "") := fun hc => hc.elim ht hm
  by_cases hfresh : ∀ row ∈ repo, row.ID ≠ u.String
  · rw [CreateAppeal_of_fresh repo u now1 now2 req h hfresh] at hok
    cases hok
    exact ⟨rfl, rfl, Iff.rfl, fun hle => hle⟩
  · rw [CreateAppeal_of_clash repo u now1 now2 req h hfresh] at hok
    cases hok

/-- A concrete reading of `CreateAppeal_timestamps`, with the clock readings 3
and 3. -/
theorem CreateAppeal_timestamps_witness :
    (AppealService.CreateAppeal sampleRepo nilUUID 3 3 ⟨"t", "m"⟩).1 =
      .ok (createdRow nilUUID 3 3 ⟨"t", "m"⟩) ∧
    (createdRow nilUUID 3 3 ⟨"t", "m"⟩).CreatedAt =
      (createdRow nilUUID 3 3 ⟨"t", "m"⟩).UpdatedAt :=
  ⟨rfl, (CreateAppeal_timestamps sampleRepo nilUUID 3 3 ⟨"t", "m"⟩
    (createdRow nilUUID 3 3 ⟨"t", "m"⟩) (by decide) (by decide) rfl).2.2.1.mpr rfl⟩

/-- C7, the code at the failing input: `CompleteAppeal` with the empty solution
on the InProgress appeal "b" of the sample table is accepted, and the stored
record is moved to Completed with an empty solution. -/
theorem CompleteAppeal_empty_solution_accepted :
    (AppealService.CompleteAppeal sampleRepo 7 "b" ⟨""⟩).1 =
      .ok { sampleRow "b" "Completed" with UpdatedAt := 7 } ∧
    AppealRepository.FindByID (AppealService.CompleteAppeal sampleRepo 7 "b" ⟨""⟩).2 "b" =
      .ok { sampleRow "b" "Completed" with UpdatedAt := 7 } :=
  ⟨rfl, rfl⟩

/-! ## Bulk cancellation -/

/-- C8: `CancelAllInProgress` returns no error; every record that was New or
InProgress becomes Cancelled; every other record is left identical in all
fields; no record is added or removed (same ids at the same positions); and
when no record matches the table is unchanged, still without error. -/
theorem CancelAllInProgress_spec (repo : AppealRepository) (now : Time) :
    AppealService.CancelAllInProgress repo now =
      AppealRepository.CancelInProgressAppeals repo now ∧
    (AppealService.CancelAllInProgress repo now).1 = none ∧
    (AppealService.CancelAllInProgress repo now).2.length = repo.length ∧
    (AppealService.CancelAllInProgress repo now).2.map (fun row => row.ID) =
      repo.map (fun row => row.ID) ∧
    (∀ (i : Nat) (row : Appeal), repo[i]? = some row →
      ∃ after, (AppealService.CancelAllInProgress repo now).2[i]? = some after ∧
        ((row.Status = StatusNew ∨ row.Status = StatusInProgress) →
          after = { row with Status := StatusCancelled, UpdatedAt := now }) ∧
        (¬ (row.Status = StatusNew ∨ row.Status = StatusInProgress) → after = row)) ∧
    ((∀ row ∈ repo, ¬ (row.Status = StatusNew ∨ row.Status = StatusInProgress)) →
      AppealService.CancelAllInProgress repo now = (none, repo)) := by
  rw [CancelAllInProgress_eq]
  refine ⟨rfl, rfl, by simp, ?_, ?_, ?_⟩
  · simp only [List.map_map]
    apply List.map_congr_left
    intro row _
    exact cancelRow_ID now row
  · intro i row hrow
    refine ⟨cancelRow now row, by simp [hrow], ?_, ?_⟩
    · intro hc
      simp only [cancelRow, if_pos hc]
    · intro hc
      simp only [cancelRow, if_neg hc]
  · intro hnone
    congr 1
    conv_rhs => rw [← List.map_id repo]
    apply List.map_congr_left
    intro row hmem
    simp only [cancelRow, if_neg (hnone row hmem), id]

/-- A concrete reading of `CancelAllInProgress_spec` on the sample table: the
New and InProgress rows are cancelled at the reading 9, the Completed and
Cancelled rows keep every field. -/
theorem CancelAllInProgress_spec_witness :
    (AppealService.CancelAllInProgress sampleRepo 9).2 =
      [{ sampleRow "a" "Cancelled" with UpdatedAt := 9 },
        { sampleRow "b" "Cancelled" with UpdatedAt := 9 },
        sampleRow "c" "Completed", sampleRow "d" "Cancelled"] ∧
    ∃ after, (AppealService.CancelAllInProgress sampleRepo 9).2[2]? = some after ∧
      (((sampleRow "c" "Completed").Status = StatusNew ∨
          (sampleRow "c" "Completed").Status = StatusInProgress) →
        after = { sampleRow "c" "Completed" with Status := StatusCancelled, UpdatedAt := 9 }) ∧
      (¬ ((sampleRow "c" "Completed").Status = StatusNew ∨
          (sampleRow "c" "Completed").Status = StatusInProgress) →
        after = sampleRow "c" "Completed") :=
  ⟨by decide, (CancelAllInProgress_spec sampleRepo 9).2.2.2.2.1 2 (sampleRow "c" "Completed") rfl⟩

/-- C9: `CancelAllInProgress` is idempotent: for any two clock readings, running
it a second time leaves the table exactly as the first run left it, in every
field of every record, and reports no error either time. -/
theorem CancelAllInProgress_idempotent (repo : AppealRepository) (t1 t2 : Time) :
    AppealService.CancelAllInProgress (AppealService.CancelAllInProgress repo t1).2 t2 =
      (none, (AppealService.CancelAllInProgress repo t1).2) := by
  simp only [CancelAllInProgress_eq, List.map_map]
  congr 1
  apply List.map_congr_left
  intro row _
  exact cancelRow_cancelRow t1 t2 row

/-! ## Update of an unknown id -/

/-- C10: `Update` of an appeal whose id is not held in the store fails with the
not-found error and leaves the table unmodified. -/
theorem Update_not_found (repo : AppealRepository) (now : Time) (appeal : Appeal)
    (h : ∀ row ∈ repo, row.ID ≠ appeal.ID) :
    AppealRepository.Update repo now appeal =
      (.error ("appeal with ID " ++ appeal.ID ++ " not found for update"), repo) := by
  unfold AppealRepository.Update
  have h0 : rowsAffected repo { appeal with UpdatedAt := now } = 0 :=
    rowsAffected_eq_zero (by simpa using h)
  have hu : updateRows repo { appeal with UpdatedAt := now } = repo :=
    updateRows_of_absent (by simpa using h)
  simp only [h0, hu, if_true]

/-- A concrete reading of `Update_not_found`: the id "non-existent" of the
repository test, on the sample table. -/
theorem Update_not_found_witness :
    (∀ row ∈ sampleRepo, row.ID ≠ (sampleRow "non-existent" "New").ID) ∧
    AppealRepository.Update sampleRepo 9 (sampleRow "non-existent" "New") =
      (.error "appeal with ID non-existent not found for update", sampleRepo) :=
  ⟨by decide, Update_not_found sampleRepo 9 (sampleRow "non-existent" "New") (by decide)⟩

/-! ## Update of a held id -/

theorem updateRows_getElem? (repo : AppealRepository) (appeal : Appeal) (i : Nat) :
    (updateRows repo appeal)[i]? =
      (repo[i]?).map (fun row => if row.ID = appeal.ID then overwrite appeal row else row) := by
  rw [updateRows_eq, List.getElem?_map]

/-- C11: `Update` of an appeal whose id is held succeeds; a following `FindByID`
returns a record with the theme, message, status, solution and cancel reason of
the appeal, `UpdatedAt` equal to the clock reading taken by `Update`, and the id
and `CreatedAt` stored before; every record with another id is unchanged. -/
theorem Update_spec (repo : AppealRepository) (now : Time) (appeal old : Appeal)
    (h : AppealRepository.FindByID repo appeal.ID = .ok old) :
    (AppealRepository.Update repo now appeal).1 = .ok { appeal with UpdatedAt := now } ∧
    (∃ stored,
      AppealRepository.FindByID (AppealRepository.Update repo now appeal).2 appeal.ID
        = .ok stored ∧
      stored.Theme = appeal.Theme ∧ stored.Message = appeal.Message ∧
      stored.Status = appeal.Status ∧ stored.Solution = appeal.Solution ∧
      stored.CanselReason = appeal.CanselReason ∧ stored.UpdatedAt = now ∧
      stored.ID = old.ID ∧ stored.CreatedAt = old.CreatedAt) ∧
    (∀ (i : Nat) (row : Appeal), repo[i]? = some row → row.ID ≠ appeal.ID →
      (AppealRepository.Update repo now appeal).2[i]? = some row) := by
  have hm := FindByID_ok_mem h
  rw [Update_of_held now appeal hm.1 hm.2]
  refine ⟨rfl, ⟨_, FindByID_after_update h rfl, rfl, rfl, rfl, rfl, rfl, rfl, rfl, rfl⟩, ?_⟩
  intro i row hrow hne
  have hne2 : ¬ row.ID = ({ appeal with UpdatedAt := now } : Appeal).ID := hne
  simp only [updateRows_getElem?, hrow, Option.map_some', if_neg hne2]

/-- A concrete reading of `Update_spec`: the appeal "a" of the sample table is
rewritten at the reading 9 and the row of "b" stays as it was. -/
theorem Update_spec_witness :
    AppealRepository.FindByID sampleRepo (sampleRow "a" "InProgress").ID =
      .ok (sampleRow "a" "New") ∧
    (AppealRepository.Update sampleRepo 9 (sampleRow "a" "InProgress")).1 =
      .ok { sampleRow "a" "InProgress" with UpdatedAt := 9 } ∧
    (sampleRepo[1]? = some (sampleRow "b" "InProgress") →
      (sampleRow "b" "InProgress").ID ≠ (sampleRow "a" "InProgress").ID →
      (AppealRepository.Update sampleRepo 9 (sampleRow "a" "InProgress")).2[1]? =
        some (sampleRow "b" "InProgress")) :=
  ⟨rfl, (Update_spec sampleRepo 9 (sampleRow "a" "InProgress") (sampleRow "a" "New") rfl).1,
    (Update_spec sampleRepo 9 (sampleRow "a" "InProgress") (sampleRow "a" "New") rfl).2.2 1
      (sampleRow "b" "InProgress")⟩

/-! ## Outcomes of the service calls -/

theorem CreateAppeal_cases (repo : AppealRepository) (u : UUID) (now1 now2 : Time)
    (req : CreateAppealRequest) :
    (∃ e, AppealService.CreateAppeal repo u now1 now2 req = (.error e, repo)) ∨
    ((∀ row ∈ repo, row.ID ≠ u.String) ∧
      AppealService.CreateAppeal repo u now1 now2 req =
        (.ok (createdRow u now1 now2 req), repo ++ [createdRow u now1 now2 req])) := by
  by_cases h : req.Theme = "" ∨ req.Message = ""
  · exact Or.inl ⟨_, CreateAppeal_of_empty repo u now1 now2 req h⟩
  · by_cases hfresh : ∀ row ∈ repo, row.ID ≠ u.String
    · exact Or.inr ⟨hfresh, CreateAppeal_of_fresh repo u now1 now2 req h hfresh⟩
    · exact Or.inl ⟨_, CreateAppeal_of_clash repo u now1 now2 req h hfresh⟩

theorem StartProcessing_cases (repo : AppealRepository) (now : Time) (id : String) :
    (∃ e, AppealService.StartProcessing repo now id = (.error e, repo)) ∨
    ∃ found, found ∈ repo ∧ found.ID = id ∧
      (found.Status = StatusNew ∨ found.Status = StatusCancelled) ∧
      AppealService.StartProcessing repo now id =
        (.ok { found with Status := StatusInProgress, UpdatedAt := now },
          updateRows repo { found with Status := StatusInProgress, UpdatedAt := now }) := by
  cases hf : AppealRepository.FindByID repo id with
  | error e =>
    left
    unfold AppealService.StartProcessing
    rw [hf]
    exact ⟨e, rfl⟩
  | ok found =>
    have hm := FindByID_ok_mem hf
    rw [StartProcessing_of_found now hf]
    by_cases hc : found.CanStartProcessing = true
    · rw [if_pos hc]
      exact Or.inr ⟨found, hm.1, hm.2, (CanStartProcessing_iff found).mp hc, rfl⟩
    · rw [if_neg hc]
      exact Or.inl ⟨_, rfl⟩

theorem CompleteAppeal_cases (repo : AppealRepository) (now : Time) (id : String)
    (req : UpdateAppealSolutionRequest) :
    (∃ e, AppealService.CompleteAppeal repo now id req = (.error e, repo)) ∨
    ∃ found, found ∈ repo ∧ found.ID = id ∧ found.Status = StatusInProgress ∧
      AppealService.CompleteAppeal repo now id req =
        (.ok { found with
            Status := StatusCompleted, Solution := req.Solution, UpdatedAt := now },
          updateRows repo { found with
            Status := StatusCompleted, Solution := req.Solution, UpdatedAt := now }) := by
  cases hf : AppealRepository.FindByID repo id with
  | error e =>
    left
    unfold AppealService.CompleteAppeal
    rw [hf]
    exact ⟨e, rfl⟩
  | ok found =>
    have hm := FindByID_ok_mem hf
    rw [CompleteAppeal_of_found now req hf]
    by_cases hc : found.CanComplete = true
    · rw [if_pos hc]
      exact Or.inr ⟨found, hm.1, hm.2, (CanComplete_iff found).mp hc, rfl⟩
    · rw [if_neg hc]
      exact Or.inl ⟨_, rfl⟩

theorem CancelAppeal_cases (repo : AppealRepository) (now : Time) (id : String) :
    (∃ e, AppealService.CancelAppeal repo now id = (some e, repo)) ∨
    ∃ found, found ∈ repo ∧ found.ID = id ∧
      (found.Status = StatusNew ∨ found.Status = StatusInProgress) ∧
      AppealService.CancelAppeal repo now id =
        (none, updateRows repo { found with Status := StatusCancelled, UpdatedAt := now }) := by
  cases hf : AppealRepository.FindByID repo id with
  | error e =>
    left
    unfold AppealService.CancelAppeal
    rw [hf]
    exact ⟨e, rfl⟩
  | ok found =>
    have hm := FindByID_ok_mem hf
    rw [CancelAppeal_of_found now hf]
    by_cases hc : found.CanCancel = true
    · rw [if_pos hc]
      exact Or.inr ⟨found, hm.1, hm.2, (CanCancel_iff found).mp hc, rfl⟩
    · rw [if_neg hc]
      exact Or.inl ⟨_, rfl⟩

/-! ## No partial success -/

/-- C14: whenever `CreateAppeal`, `StartProcessing`, `CompleteAppeal` or
`CancelAppeal` returns an error, of whatever kind, the table after the call is
the table before it. -/
theorem no_partial_success (repo : AppealRepository) :
    (∀ (u : UUID) (now1 now2 : Time) (req : CreateAppealRequest) (e : String),
      (AppealService.CreateAppeal repo u now1 now2 req).1 = .error e →
      (AppealService.CreateAppeal repo u now1 now2 req).2 = repo) ∧
    (∀ (now : Time) (id e : String),
      (AppealService.StartProcessing repo now id).1 = .error e →
      (AppealService.StartProcessing repo now id).2 = repo) ∧
    (∀ (now : Time) (id : String) (req : UpdateAppealSolutionRequest) (e : String),
      (AppealService.CompleteAppeal repo now id req).1 = .error e →
      (AppealService.CompleteAppeal repo now id req).2 = repo) ∧
    (∀ (now : Time) (id e : String),
      (AppealService.CancelAppeal repo now id).1 = some e →
      (AppealService.CancelAppeal repo now id).2 = repo) := by
  refine ⟨?_, ?_, ?_, ?_⟩
  · intro u now1 now2 req e herr
    rcases CreateAppeal_cases repo u now1 now2 req with ⟨e', h⟩ | ⟨_, h⟩
    · rw [h]
    · rw [h] at herr
      cases herr
  · intro now id e herr
    rcases StartProcessing_cases repo now id with ⟨e', h⟩ | ⟨found, _, _, _, h⟩
    · rw [h]
    · rw [h] at herr
      cases herr
  · intro now id req e herr
    rcases CompleteAppeal_cases repo now id req with ⟨e', h⟩ | ⟨found, _, _, _, h⟩
    · rw [h]
    · rw [h] at herr
      cases herr
  · intro now id e herr
    rcases CancelAppeal_cases repo now id with ⟨e', h⟩ | ⟨found, _, _, _, h⟩
    · rw [h]
    · rw [h] at herr
      cases herr

/-- A concrete reading of `no_partial_success` on the sample table: completing
the New appeal "a" is refused, starting the unknown id "zz" is refused, and an
empty theme is refused, each time with the table left as it was. -/
theorem no_partial_success_witness :
    (AppealService.CompleteAppeal sampleRepo 9 "a" ⟨"fixed"⟩).1 =
      .error "cannot complete appeal with status: New" ∧
    (AppealService.CompleteAppeal sampleRepo 9 "a" ⟨"fixed"⟩).2 = sampleRepo ∧
    (AppealService.StartProcessing sampleRepo 9 "zz").2 = sampleRepo ∧
    (AppealService.CreateAppeal sampleRepo nilUUID 9 9 ⟨"", "m"⟩).2 = sampleRepo :=
  ⟨rfl, (no_partial_success sampleRepo).2.2.1 9 "a" ⟨"fixed"⟩ _ rfl,
    (no_partial_success sampleRepo).2.1 9 "zz" "appeal with ID zz not found" rfl,
    (no_partial_success sampleRepo).1 nilUUID 9 9 ⟨"", "m"⟩ _ rfl⟩

/-! ## What a service call does to the table -/

/-- Every service call either leaves the table as it is, or appends one New
row with an empty solution and a fresh id, or rewrites the rows of one held
appeal along a lifecycle edge, or runs the bulk cancellation. -/
theorem exec_cases (repo : AppealRepository) (c : ServiceCall) :
    c.exec repo = repo ∨
    (∃ a, c.exec repo = repo ++ [a] ∧ (∀ row ∈ repo, row.ID ≠ a.ID) ∧
      a.Status = StatusNew ∧ a.Solution = "" ∧ c.readings = [a.CreatedAt, a.UpdatedAt]) ∨
    (∃ (found : Appeal) (s : AppealStatus) (sol : String) (now : Time),
      found ∈ repo ∧ now ∈ c.readings ∧
      c.exec repo =
        updateRows repo { found with Status := s, Solution := sol, UpdatedAt := now } ∧
      LifecycleEdge found.Status s ∧ (s = StatusCompleted ∨ sol = found.Solution)) ∨
    (∃ now, now ∈ c.readings ∧ c.exec repo = repo.map (cancelRow now)) := by
  cases c with
  | CreateAppeal u now1 now2 req =>
    show (AppealService.CreateAppeal repo u now1 now2 req).2 = repo ∨ _
    rcases CreateAppeal_cases repo u now1 now2 req with ⟨e, h⟩ | ⟨hfresh, h⟩
    · exact Or.inl (by rw [h])
    · exact Or.inr (Or.inl ⟨createdRow u now1 now2 req, congrArg Prod.snd h, hfresh, rfl, rfl, rfl⟩)
  | StartProcessing now id =>
    show (AppealService.StartProcessing repo now id).2 = repo ∨ _
    rcases StartProcessing_cases repo now id with ⟨e, h⟩ | ⟨found, hmem, _, hst, h⟩
    · exact Or.inl (by rw [h])
    · refine Or.inr (Or.inr (Or.inl
        ⟨found, StatusInProgress, found.Solution, now, hmem, List.mem_singleton.mpr rfl,
          congrArg Prod.snd h, ?_, Or.inr rfl⟩))
      rcases hst with hst | hst
      · exact Or.inl ⟨hst, rfl⟩
      · exact Or.inr (Or.inl ⟨hst, rfl⟩)
  | CompleteAppeal now id req =>
    show (AppealService.CompleteAppeal repo now id req).2 = repo ∨ _
    rcases CompleteAppeal_cases repo now id req with ⟨e, h⟩ | ⟨found, hmem, _, hst, h⟩
    · exact Or.inl (by rw [h])
    · exact Or.inr (Or.inr (Or.inl
        ⟨found, StatusCompleted, req.Solution, now, hmem, List.mem_singleton.mpr rfl,
          congrArg Prod.snd h, Or.inr (Or.inr (Or.inl ⟨hst, rfl⟩)), Or.inl rfl⟩))
  | CancelAppeal now id =>
    show (AppealService.CancelAppeal repo now id).2 = repo ∨ _
    rcases CancelAppeal_cases repo now id with ⟨e, h⟩ | ⟨found, hmem, _, hst, h⟩
    · exact Or.inl (by rw [h])
    · refine Or.inr (Or.inr (Or.inl
        ⟨found, StatusCancelled, found.Solution, now, hmem, List.mem_singleton.mpr rfl,
          congrArg Prod.snd h, ?_, Or.inr rfl⟩))
      rcases hst with hst | hst
      · exact Or.inr (Or.inr (Or.inr (Or.inl ⟨hst, rfl⟩)))
      · exact Or.inr (Or.inr (Or.inr (Or.inr ⟨hst, rfl⟩)))
  | CancelAllInProgress now =>
    exact Or.inr (Or.inr (Or.inr ⟨now, List.mem_singleton.mpr rfl, rfl⟩))

theorem mem_updateRows {repo : AppealRepository} {appeal row' : Appeal}
    (h : row' ∈ updateRows repo appeal) :
    row' ∈ repo ∨ ∃ row ∈ repo, row' = overwrite appeal row := by
  rw [updateRows_eq, List.mem_map] at h
  obtain ⟨row, hmem, heq⟩ := h
  by_cases hid : row.ID = appeal.ID
  · rw [if_pos hid] at heq
    exact Or.inr ⟨row, hmem, heq.symm⟩
  · rw [if_neg hid] at heq
    exact Or.inl (heq ▸ hmem)

theorem updateRows_ids (repo : AppealRepository) (appeal : Appeal) :
    (updateRows repo appeal).map (fun row => row.ID) = repo.map (fun row => row.ID) := by
  rw [updateRows_eq, List.map_map]
  apply List.map_congr_left
  intro row _
  exact ite_overwrite_ID appeal row

theorem PrimaryKey_unique {repo : AppealRepository} (hpk : PrimaryKey repo) {row row' : Appeal}
    (h1 : row ∈ repo) (h2 : row' ∈ repo) (hid : row.ID = row'.ID) : row = row' :=
  List.inj_on_of_nodup_map hpk h1 h2 hid

/-- Every service call keeps the primary key. -/
theorem PrimaryKey_exec (repo : AppealRepository) (c : ServiceCall) (hpk : PrimaryKey repo) :
    PrimaryKey (c.exec repo) := by
  rcases exec_cases repo c with h | ⟨a, h, hfresh, _⟩ | ⟨found, s, sol, now, _, _, h, _⟩ |
    ⟨now, _, h⟩
  · rw [h]
    exact hpk
  · rw [h]
    unfold PrimaryKey at hpk ⊢
    rw [List.map_append, List.nodup_append]
    refine ⟨hpk, List.nodup_singleton _, ?_⟩
    intro x hx hx'
    rw [List.mem_map] at hx
    obtain ⟨row, hmem, rfl⟩ := hx
    simp only [List.map_cons, List.map_nil, List.mem_singleton] at hx'
    exact hfresh row hmem hx'
  · rw [h]
    unfold PrimaryKey
    rw [updateRows_ids]
    exact hpk
  · rw [h]
    unfold PrimaryKey
    rw [List.map_map]
    have : (fun row : Appeal => row.ID) ∘ cancelRow now = fun row => row.ID := by
      funext row
      exact cancelRow_ID now row
    rw [this]
    exact hpk

/-- Every table reached from the empty one keeps the primary key. -/
theorem PrimaryKey_runCalls (calls : List ServiceCall) : PrimaryKey (runCalls [] calls) := by
  have key : ∀ (cs : List ServiceCall) (repo : AppealRepository),
      PrimaryKey repo → PrimaryKey (runCalls repo cs) := by
    intro cs
    induction cs with
    | nil => exact fun _ h => h
    | cons c cs ih => exact fun repo h => ih (c.exec repo) (PrimaryKey_exec repo c h)
  exact key calls [] List.nodup_nil

theorem no_edge_from_Completed (t : AppealStatus) : ¬ LifecycleEdge StatusCompleted t := by
  simp [LifecycleEdge, StatusCompleted, StatusNew, StatusInProgress, StatusCancelled]

theorem edge_source_ne_Completed {s t : AppealStatus} (h : LifecycleEdge s t) :
    s ≠ StatusCompleted := by
  rintro rfl
  exact no_edge_from_Completed t h

/-! ## The lifecycle as an invariant of the table -/

/-- C15: under every service call (`CreateAppeal`, `StartProcessing`,
`CompleteAppeal`, `CancelAppeal`, `CancelAllInProgress`) on a table that
respects its primary key, each record present before the call is still there,
under the same id, and either keeps its status or changes it along one of the
edges New to InProgress, Cancelled to InProgress, InProgress to Completed, New
to Cancelled, InProgress to Cancelled; a Completed record stays Completed. -/
theorem status_changes_along_edges (repo : AppealRepository) (hpk : PrimaryKey repo)
    (c : ServiceCall) (i : Nat) (row : Appeal) (hrow : repo[i]? = some row) :
    ∃ after, (c.exec repo)[i]? = some after ∧ after.ID = row.ID ∧
      (after.Status = row.Status ∨ LifecycleEdge row.Status after.Status) ∧
      (row.Status = StatusCompleted → after.Status = StatusCompleted) := by
  have hmem : row ∈ repo := List.getElem?_mem hrow
  have key : ∃ after, (c.exec repo)[i]? = some after ∧ after.ID = row.ID ∧
      (after.Status = row.Status ∨ LifecycleEdge row.Status after.Status) := by
    rcases exec_cases repo c with h | ⟨a, h, _⟩ | ⟨found, s, sol, now, hf, _, h, hedge, _⟩ |
      ⟨now, _, h⟩
    · rw [h]
      exact ⟨row, hrow, rfl, Or.inl rfl⟩
    · rw [h]
      obtain ⟨hi, _⟩ := List.getElem?_eq_some_iff.mp hrow
      rw [List.getElem?_append_left hi]
      exact ⟨row, hrow, rfl, Or.inl rfl⟩
    · rw [h, updateRows_getElem?, hrow, Option.map_some']
      by_cases hid : row.ID = found.ID
      · have hsame : row = found := PrimaryKey_unique hpk hmem hf hid
        subst hsame
        have hid2 : row.ID =
            ({ row with Status := s, Solution := sol, UpdatedAt := now } : Appeal).ID := rfl
        rw [if_pos hid2]
        exact ⟨_, rfl, rfl, Or.inr hedge⟩
      · have hid2 : ¬ row.ID =
            ({ found with Status := s, Solution := sol, UpdatedAt := now } : Appeal).ID := hid
        rw [if_neg hid2]
        exact ⟨row, rfl, rfl, Or.inl rfl⟩
    · rw [h, List.getElem?_map, hrow, Option.map_some']
      refine ⟨cancelRow now row, rfl, cancelRow_ID now row, ?_⟩
      unfold cancelRow
      by_cases hc : row.Status = StatusNew ∨ row.Status = StatusInProgress
      · rw [if_pos hc]
        rcases hc with hc | hc
        · exact Or.inr (Or.inr (Or.inr (Or.inr (Or.inl ⟨hc, rfl⟩))))
        · exact Or.inr (Or.inr (Or.inr (Or.inr (Or.inr ⟨hc, rfl⟩))))
      · rw [if_neg hc]
        exact Or.inl rfl
  obtain ⟨after, h1, h2, h3⟩ := key
  refine ⟨after, h1, h2, h3, fun hc => ?_⟩
  rcases h3 with h3 | h3
  · rw [h3, hc]
  · rw [hc] at h3
    exact absurd h3 (no_edge_from_Completed _)

/-- A concrete reading of `status_changes_along_edges`: on the sample table,
`StartProcessing` of "d" takes the fourth row from Cancelled to InProgress. -/
theorem status_changes_along_edges_witness :
    PrimaryKey sampleRepo ∧ sampleRepo[3]? = some (sampleRow "d" "Cancelled") ∧
    ∃ after, ((ServiceCall.StartProcessing 9 "d").exec sampleRepo)[3]? = some after ∧
      after.ID = (sampleRow "d" "Cancelled").ID ∧
      (after.Status = (sampleRow "d" "Cancelled").Status ∨
        LifecycleEdge (sampleRow "d" "Cancelled").Status after.Status) ∧
      ((sampleRow "d" "Cancelled").Status = StatusCompleted →
        after.Status = StatusCompleted) :=
  ⟨by decide, rfl,
    status_changes_along_edges sampleRepo (by decide) (.StartProcessing 9 "d") 3
      (sampleRow "d" "Cancelled") rfl⟩

/-! ## Timestamps along a history -/

theorem runCalls_cons (repo : AppealRepository) (c : ServiceCall) (cs : List ServiceCall) :
    runCalls repo (c :: cs) = runCalls (c.exec repo) cs := rfl

/-- One service call keeps `CreatedAt <= UpdatedAt`, provided its own readings
do not decrease and none of them is earlier than a stored `CreatedAt`; every
`CreatedAt` it leaves was stored before or is one of its readings. -/
theorem exec_timestamps (repo : AppealRepository) (c : ServiceCall)
    (hinv : ∀ row ∈ repo, row.CreatedAt ≤ row.UpdatedAt)
    (hb : ∀ row ∈ repo, ∀ t ∈ c.readings, row.CreatedAt ≤ t)
    (hs : c.readings.Pairwise (· ≤ ·)) :
    ∀ after ∈ c.exec repo, after.CreatedAt ≤ after.UpdatedAt ∧
      ((∃ row ∈ repo, after.CreatedAt = row.CreatedAt) ∨ after.CreatedAt ∈ c.readings) := by
  intro after hafter
  rcases exec_cases repo c with h | ⟨a, h, _, _, _, hr⟩ | ⟨found, s, sol, now, _, hnow, h, _⟩ |
    ⟨now, hnow, h⟩
  · rw [h] at hafter
    exact ⟨hinv after hafter, Or.inl ⟨after, hafter, rfl⟩⟩
  · rw [h, List.mem_append, List.mem_singleton] at hafter
    rcases hafter with hold | rfl
    · exact ⟨hinv after hold, Or.inl ⟨after, hold, rfl⟩⟩
    · rw [hr] at hs ⊢
      refine ⟨?_, Or.inr (List.mem_cons_self _ _)⟩
      exact (List.pairwise_cons.mp hs).1 _ (List.mem_singleton.mpr rfl)
  · rw [h] at hafter
    rcases mem_updateRows hafter with hold | ⟨row, hrow, rfl⟩
    · exact ⟨hinv after hold, Or.inl ⟨after, hold, rfl⟩⟩
    · exact ⟨hb row hrow now hnow, Or.inl ⟨row, hrow, rfl⟩⟩
  · rw [h, List.mem_map] at hafter
    obtain ⟨row, hrow, rfl⟩ := hafter
    unfold cancelRow
    by_cases hc : row.Status = StatusNew ∨ row.Status = StatusInProgress
    · rw [if_pos hc]
      exact ⟨hb row hrow now hnow, Or.inl ⟨row, hrow, rfl⟩⟩
    · rw [if_neg hc]
      exact ⟨hinv row hrow, Or.inl ⟨row, hrow, rfl⟩⟩

theorem runCalls_timestamps (calls : List ServiceCall) :
    ∀ repo : AppealRepository,
      (∀ row ∈ repo, row.CreatedAt ≤ row.UpdatedAt) →
      (∀ row ∈ repo, ∀ t ∈ calls.flatMap ServiceCall.readings, row.CreatedAt ≤ t) →
      (calls.flatMap ServiceCall.readings).Pairwise (· ≤ ·) →
      ∀ row ∈ runCalls repo calls, row.CreatedAt ≤ row.UpdatedAt := by
  induction calls with
  | nil => exact fun repo hinv _ _ => hinv
  | cons c cs ih =>
    intro repo hinv hb hs
    rw [List.flatMap_cons] at hb hs
    obtain ⟨hs1, hs2, hs3⟩ := List.pairwise_append.mp hs
    have hstep := exec_timestamps repo c hinv
      (fun row hrow t ht => hb row hrow t (List.mem_append_left _ ht)) hs1
    rw [runCalls_cons]
    refine ih (c.exec repo) (fun row hrow => (hstep row hrow).1) ?_ hs2
    intro after hafter t ht
    rcases (hstep after hafter).2 with ⟨row, hrow, heq⟩ | hmem
    · rw [heq]
      exact hb row hrow t (List.mem_append_right _ ht)
    · exact hs3 _ hmem t ht

/-- C16: when the successive clock readings of a sequence of service calls
never decrease, every record of the table reached from the empty one has
`CreatedAt <= UpdatedAt`. -/
theorem createdAt_le_updatedAt (calls : List ServiceCall)
    (hclock : List.Chain' (· ≤ ·) (calls.flatMap ServiceCall.readings)) :
    ∀ row ∈ runCalls [] calls, row.CreatedAt ≤ row.UpdatedAt :=
  runCalls_timestamps calls [] (fun _ h => absurd h (List.not_mem_nil _))
    (fun _ h => absurd h (List.not_mem_nil _)) (List.chain'_iff_pairwise.mp hclock)

theorem sampleCalls_clock :
    List.Chain' (· ≤ ·) (sampleCalls.flatMap ServiceCall.readings) := by
  show List.Chain' (· ≤ ·) [(1 : Time), 2, 3, 4]
  simp

/-- A concrete reading of `createdAt_le_updatedAt`: the sample history, whose
readings are 1, 2, 3, 4, leaves one record, created at 1 and updated at 4. -/
theorem createdAt_le_updatedAt_witness :
    List.Chain' (· ≤ ·) (sampleCalls.flatMap ServiceCall.readings) ∧
    runCalls [] sampleCalls =
      [{ createdRow nilUUID 1 4 ⟨"t", "m"⟩ with Status := StatusCancelled }] ∧
    ({ createdRow nilUUID 1 4 ⟨"t", "m"⟩ with Status := StatusCancelled } : Appeal).CreatedAt ≤
      ({ createdRow nilUUID 1 4 ⟨"t", "m"⟩ with Status := StatusCancelled } : Appeal).UpdatedAt :=
  ⟨sampleCalls_clock, rfl,
    createdAt_le_updatedAt sampleCalls sampleCalls_clock _ (List.mem_singleton.mpr rfl)⟩

/-! ## The solution along a history -/

/-- One service call keeps the solution of every record that is not Completed
empty. -/
theorem exec_solution (repo : AppealRepository) (c : ServiceCall)
    (hinv : ∀ row ∈ repo, row.Status ≠ StatusCompleted → row.Solution = "") :
    ∀ after ∈ c.exec repo, after.Status ≠ StatusCompleted → after.Solution = "" := by
  intro after hafter hne
  rcases exec_cases repo c with h | ⟨a, h, _, _, hsol, _⟩ |
    ⟨found, s, sol, now, hf, _, h, hedge, hs⟩ | ⟨now, _, h⟩
  · rw [h] at hafter
    exact hinv after hafter hne
  · rw [h, List.mem_append, List.mem_singleton] at hafter
    rcases hafter with hold | rfl
    · exact hinv after hold hne
    · exact hsol
  · rw [h] at hafter
    rcases mem_updateRows hafter with hold | ⟨row, _, rfl⟩
    · exact hinv after hold hne
    · rcases hs with hs | hs
      · exact absurd hs hne
      · show sol = ""
        rw [hs]
        exact hinv found hf (edge_source_ne_Completed hedge)
  · rw [h, List.mem_map] at hafter
    obtain ⟨row, hrow, rfl⟩ := hafter
    unfold cancelRow at hne ⊢
    by_cases hc : row.Status = StatusNew ∨ row.Status = StatusInProgress
    · rw [if_pos hc]
      refine hinv row hrow ?_
      rcases hc with hc | hc <;> rw [hc] <;> decide
    · rw [if_neg hc] at hne ⊢
      exact hinv row hrow hne

/-- C17: in every table reached from the empty one by a sequence of service
calls, every record whose status is not Completed has an empty solution. -/
theorem solution_empty_until_completed (calls : List ServiceCall) :
    ∀ row ∈ runCalls [] calls, row.Status ≠ StatusCompleted → row.Solution = "" := by
  have key : ∀ (cs : List ServiceCall) (repo : AppealRepository),
      (∀ row ∈ repo, row.Status ≠ StatusCompleted → row.Solution = "") →
      ∀ row ∈ runCalls repo cs, row.Status ≠ StatusCompleted → row.Solution = "" := by
    intro cs
    induction cs with
    | nil => exact fun _ h => h
    | cons c cs ih => exact fun repo h => ih (c.exec repo) (exec_solution repo c h)
  exact key calls [] (fun _ h => absurd h (List.not_mem_nil _))

/-- A concrete reading of `solution_empty_until_completed`: the record left by
the sample history is Cancelled and its solution is empty. -/
theorem solution_empty_until_completed_witness :
    ({ createdRow nilUUID 1 4 ⟨"t", "m"⟩ with Status := StatusCancelled } : Appeal) ∈
      runCalls [] sampleCalls ∧
    ({ createdRow nilUUID 1 4 ⟨"t", "m"⟩ with Status := StatusCancelled } : Appeal).Status ≠
      StatusCompleted ∧
    ({ createdRow nilUUID 1 4 ⟨"t", "m"⟩ with Status := StatusCancelled } : Appeal).Solution =
      "" :=
  ⟨List.mem_singleton.mpr rfl, by decide,
    solution_empty_until_completed sampleCalls _ (List.mem_singleton.mpr rfl) (by decide)⟩

/-! ## The order of the texts the driver binds -/

theorem textLE_refl (p : List Char) : textLE p p = true := by
  induction p with
  | nil => rfl
  | cons a p ih => simp [textLE, ih]

theorem Below.cons_lt {a b : Char} (h : a.toNat < b.toNat) (p q : List Char) :
    Below (a :: p) (b :: q) := by
  intro x y
  have h2 : ¬ b.toNat < a.toNat := by omega
  simp [textLE, h, h2]

theorem Below.cons (c : Char) {p q : List Char} (h : Below p q) : Below (c :: p) (c :: q) := by
  intro x y
  simpa [textLE] using h x y

theorem Below.of_cons {c : Char} {p q : List Char} (h : Below (c :: p) (c :: q)) :
    Below p q := by
  intro x y
  simpa [textLE] using h x y

theorem Below.append_right {p q : List Char} (h : Below p q) (r s : List Char) :
    Below (p ++ r) (q ++ s) := by
  intro x y
  simpa [List.append_assoc] using h (r ++ x) (s ++ y)

theorem Below.append_left (r : List Char) {p q : List Char} (h : Below p q) :
    Below (r ++ p) (r ++ q) := by
  induction r with
  | nil => exact h
  | cons c r ih => exact Below.cons c ih

theorem Below.le {p q : List Char} (h : Below p q) :
    textLE p q = true ∧ textLE q p = false := by
  simpa using h [] []

theorem Below.irrefl (p : List Char) : ¬ Below p p := by
  intro h
  have := (h.le).2
  rw [textLE_refl] at this
  cases this

theorem Below.head_le {a b : Char} {p q : List Char} (h : Below (a :: p) (b :: q)) :
    a.toNat ≤ b.toNat := by
  by_contra hlt
  have h1 := (h [] []).1
  have h2 : b.toNat < a.toNat := by omega
  have h3 : ¬ a.toNat < b.toNat := by omega
  simp [textLE, h2, h3] at h1

theorem digitChar_lt : ∀ a b : Fin 10,
    a < b → (digitChar a.val).toNat < (digitChar b.val).toNat := by
  decide

theorem digitChar_ge : ∀ a : Fin 10, 48 ≤ (digitChar a.val).toNat := by
  decide

theorem lowDigits_length (k n : Nat) : (lowDigits k n).length = k := by
  induction k with
  | zero => rfl
  | succ k ih => simp [lowDigits, ih]

theorem lowDigits_ge (k n : Nat) : ∀ c ∈ lowDigits k n, 48 ≤ c.toNat := by
  induction k with
  | zero => simp [lowDigits]
  | succ k ih =>
    intro c hc
    simp only [lowDigits, List.mem_cons] at hc
    rcases hc with rfl | hc
    · exact digitChar_ge ⟨_, Nat.mod_lt _ (by decide)⟩
    · exact ih c hc

theorem lowDigits_below (k : Nat) : ∀ a b : Nat, a % 10 ^ k < b % 10 ^ k →
    Below (lowDigits k a) (lowDigits k b) := by
  induction k with
  | zero =>
    intro a b h
    simp [Nat.mod_one] at h
  | succ k ih =>
    intro a b h
    rw [Nat.mod_pow_succ, Nat.mod_pow_succ] at h
    have ha : a % 10 ^ k < 10 ^ k := Nat.mod_lt _ (by positivity)
    have hb : b % 10 ^ k < 10 ^ k := Nat.mod_lt _ (by positivity)
    have hda : a / 10 ^ k % 10 < 10 := Nat.mod_lt _ (by decide)
    have hdb : b / 10 ^ k % 10 < 10 := Nat.mod_lt _ (by decide)
    show Below (digitChar (a / 10 ^ k % 10) :: lowDigits k a)
      (digitChar (b / 10 ^ k % 10) :: lowDigits k b)
    rcases Nat.lt_trichotomy (a / 10 ^ k % 10) (b / 10 ^ k % 10) with hlt | heq | hgt
    · exact Below.cons_lt (digitChar_lt ⟨_, hda⟩ ⟨_, hdb⟩ hlt) _ _
    · rw [heq] at h ⊢
      exact Below.cons _ (ih a b (by omega))
    · exfalso
      have : 10 ^ k * (b / 10 ^ k % 10 + 1) ≤ 10 ^ k * (a / 10 ^ k % 10) :=
        Nat.mul_le_mul_left _ hgt
      rw [Nat.mul_add, Nat.mul_one] at this
      omega

theorem lowDigits_below_of_lt (k : Nat) {a b : Nat} (h : a < b) (hb : b < 10 ^ k) :
    Below (lowDigits k a) (lowDigits k b) := by
  apply lowDigits_below
  rw [Nat.mod_eq_of_lt (by omega), Nat.mod_eq_of_lt hb]
  exact h

/-- One zero-padded field followed by more text: the smaller number comes first,
and on equal numbers the rest decides. -/
theorem below_field (k : Nat) {a b : Nat} (hb : b < 10 ^ k) (r s : List Char)
    (h : a < b ∨ (a = b ∧ Below r s)) :
    Below (lowDigits k a ++ r) (lowDigits k b ++ s) := by
  rcases h with h | ⟨rfl, h⟩
  · exact (lowDigits_below_of_lt k h hb).append_right r s
  · exact h.append_left _

theorem trimZeros_cons (c : Char) (l : List Char) :
    trimZeros (c :: l) = if trimZeros l = [] ∧ c = '0' then [] else c :: trimZeros l := rfl

theorem mem_trimZeros : ∀ (l : List Char) (c : Char), c ∈ trimZeros l → c ∈ l := by
  intro l
  induction l with
  | nil => simp [trimZeros]
  | cons a l ih =>
    intro c hc
    unfold trimZeros at hc
    split at hc
    · cases hc
    · rcases List.mem_cons.mp hc with rfl | hc
      · exact List.mem_cons_self _ _
      · exact List.mem_cons_of_mem _ (ih c hc)

/-- Trailing zeros cut off, then a character below the digits: the order of two
digit texts of one length is kept. -/
theorem trimZeros_below (c : Char) (hc : c.toNat < 48) :
    ∀ la lb : List Char, la.length = lb.length →
      (∀ x ∈ la, 48 ≤ x.toNat) → (∀ x ∈ lb, 48 ≤ x.toNat) → Below la lb →
      ∀ z1 z2, Below (trimZeros la ++ c :: z1) (trimZeros lb ++ c :: z2) := by
  intro la
  induction la with
  | nil =>
    intro lb hlen _ _ h
    cases lb with
    | nil => exact absurd h (Below.irrefl [])
    | cons b lb => cases hlen
  | cons a la ih =>
    intro lb hlen hla hlb h z1 z2
    cases lb with
    | nil => cases hlen
    | cons b lb =>
      have hle := h.head_le
      have ha48 := hla a (List.mem_cons_self _ _)
      have hzero : ('0' : Char).toNat = 48 := rfl
      rcases Nat.lt_or_ge a.toNat b.toNat with hlt | hge
      · have hb0 : b ≠ '0' := by
          rintro rfl
          omega
        have hrb : trimZeros (b :: lb) = b :: trimZeros lb := by
          simp [trimZeros, hb0]
        rw [hrb, trimZeros_cons]
        split
        · exact Below.cons_lt (by omega) _ _
        · exact Below.cons_lt hlt _ _
      · have hab : a = b := Char.ext (by
          have : a.toNat = b.toNat := by omega
          exact UInt32.ext (by simpa [Char.toNat] using this))
        subst hab
        have htail : Below la lb := h.of_cons
        have hlen' : la.length = lb.length := by simpa using hlen
        have hla' : ∀ x ∈ la, 48 ≤ x.toNat := fun x hx => hla x (List.mem_cons_of_mem _ hx)
        have hlb' : ∀ x ∈ lb, 48 ≤ x.toNat := fun x hx => hlb x (List.mem_cons_of_mem _ hx)
        have hrec := ih lb hlen' hla' hlb' htail
        have hne : trimZeros lb ≠ [] := by
          intro hnil
          have h0 := hrec [] []
          rw [hnil] at h0
          cases hta : trimZeros la with
          | nil =>
            rw [hta] at h0
            exact Below.irrefl _ h0
          | cons x t =>
            rw [hta] at h0
            have hx : x ∈ la := mem_trimZeros la x (by rw [hta]; exact List.mem_cons_self _ _)
            have := hla' x hx
            have := Below.head_le h0
            omega
        have hrb : trimZeros (a :: lb) = a :: trimZeros lb := by
          simp [trimZeros, hne]
        rw [hrb, trimZeros_cons]
        split
        · rename_i hcond
          have : a.toNat = 48 := by rw [hcond.2]; rfl
          exact Below.cons_lt (by omega) _ _
        · exact Below.cons a (hrec z1 z2)

/-! ## The calendar -/

theorem eraDate_spec (doe : Nat) (h : doe < 146097) :
    ∃ a b c : Nat, a ≤ 3 ∧ b ≤ 24 ∧ c ≤ 3 ∧ (eraDate doe).1 = 100 * a + 4 * b + c ∧
      doe = 36524 * a + 1461 * b + 365 * c + (eraDate doe).2 ∧
      ((eraDate doe).2 < 365 ∨ ((eraDate doe).2 = 365 ∧ c = 3 ∧ (b ≠ 24 ∨ a = 3))) := by
  unfold eraDate
  dsimp only
  refine ⟨doe / 36524 - doe / 36524 / 4, (doe - 36524 * (doe / 36524 - doe / 36524 / 4)) / 1461,
    (doe - 36524 * (doe / 36524 - doe / 36524 / 4)) % 1461 / 365 -
      (doe - 36524 * (doe / 36524 - doe / 36524 / 4)) % 1461 / 365 / 4, ?_, ?_, ?_, rfl, ?_, ?_⟩
  all_goals omega

/-- A day count splits into cycles of 400, 100, 4 and 1 years and the day of the
year that `absDate` returns; the day 365 occurs in leap years only. -/
theorem absDate_spec (d : Int) :
    ∃ (e : Int) (a b c : Nat), a ≤ 3 ∧ b ≤ 24 ∧ c ≤ 3 ∧
      (absDate d).1 = 400 * e + (100 * a + 4 * b + c : Nat) + 1 ∧
      d = 146097 * e + (36524 * a + 1461 * b + 365 * c + (absDate d).2 : Nat) ∧
      ((absDate d).2 < 365 ∨ ((absDate d).2 = 365 ∧ c = 3 ∧ (b ≠ 24 ∨ a = 3))) := by
  have hdoe : (d % 146097).toNat < 146097 := by omega
  obtain ⟨a, b, c, ha, hb, hc, hy, hd, hyd⟩ := eraDate_spec _ hdoe
  refine ⟨d / 146097, a, b, c, ha, hb, hc, ?_, ?_, hyd⟩
  · show 400 * (d / 146097) + ((eraDate (d % 146097).toNat).1 : Int) + 1 = _
    rw [hy]
  · show d = 146097 * (d / 146097) +
      ((36524 * a + 1461 * b + 365 * c + (eraDate (d % 146097).toNat).2 : Nat) : Int)
    rw [← hd]
    omega

theorem absDate_mono (d1 d2 : Int) (h : d1 < d2) :
    (absDate d1).1 < (absDate d2).1 ∨
      ((absDate d1).1 = (absDate d2).1 ∧ (absDate d1).2 < (absDate d2).2) := by
  obtain ⟨e1, a1, b1, c1, ha1, hb1, hc1, hy1, hd1, hyd1⟩ := absDate_spec d1
  obtain ⟨e2, a2, b2, c2, ha2, hb2, hc2, hy2, hd2, hyd2⟩ := absDate_spec d2
  rw [hy1, hy2]
  generalize (absDate d1).2 = y1 at hd1 hyd1 ⊢
  generalize (absDate d2).2 = y2 at hd2 hyd2 ⊢
  omega

theorem absDate_year_range (d : Int) (h0 : 0 ≤ d) (h1 : d < 3652059) :
    1 ≤ (absDate d).1 ∧ (absDate d).1 ≤ 9999 := by
  obtain ⟨e, a, b, c, ha, hb, hc, hy, hd, hyd⟩ := absDate_spec d
  rw [hy]
  generalize (absDate d).2 = y at hd hyd ⊢
  omega

theorem absDate_yday_lt (d : Int) :
    (absDate d).2 < 365 + (if isLeap (absDate d).1 = true then 1 else 0) := by
  obtain ⟨e, a, b, c, ha, hb, hc, hy, hd, hyd⟩ := absDate_spec d
  rw [hy]
  generalize (absDate d).2 = y at hd hyd ⊢
  unfold isLeap
  split
  · omega
  · rename_i hl
    simp only [decide_eq_true_eq] at hl
    omega

/-- The month table: the month `m` and the day of the month `d` of a day `y` of
the year. -/
theorem monthDay_spec (leap : Bool) (y l m d : Nat) (hl : l = if leap = true then 1 else 0)
    (h : y < 365 + l) (hmd : monthDay leap y = (m, d)) :
    (y < 31 ∧ m = 1 ∧ d = y + 1) ∨
    (31 ≤ y ∧ y < 59 + l ∧ m = 2 ∧ d + 31 = y + 1) ∨
    (59 + l ≤ y ∧ y < 90 + l ∧ m = 3 ∧ d + 59 + l = y + 1) ∨
    (90 + l ≤ y ∧ y < 120 + l ∧ m = 4 ∧ d + 90 + l = y + 1) ∨
    (120 + l ≤ y ∧ y < 151 + l ∧ m = 5 ∧ d + 120 + l = y + 1) ∨
    (151 + l ≤ y ∧ y < 181 + l ∧ m = 6 ∧ d + 151 + l = y + 1) ∨
    (181 + l ≤ y ∧ y < 212 + l ∧ m = 7 ∧ d + 181 + l = y + 1) ∨
    (212 + l ≤ y ∧ y < 243 + l ∧ m = 8 ∧ d + 212 + l = y + 1) ∨
    (243 + l ≤ y ∧ y < 273 + l ∧ m = 9 ∧ d + 243 + l = y + 1) ∨
    (273 + l ≤ y ∧ y < 304 + l ∧ m = 10 ∧ d + 273 + l = y + 1) ∨
    (304 + l ≤ y ∧ y < 334 + l ∧ m = 11 ∧ d + 304 + l = y + 1) ∨
    (334 + l ≤ y ∧ m = 12 ∧ d + 334 + l = y + 1) := by
  unfold monthDay at hmd
  rw [← hl] at hmd
  dsimp only at hmd
  by_cases h0 : y < 31
  · rw [if_pos h0] at hmd
    have hm := congrArg Prod.fst hmd
    have hd := congrArg Prod.snd hmd
    dsimp only at hm hd
    exact Or.inl ⟨by omega, by omega, by omega⟩
  · rw [if_neg h0] at hmd
    by_cases h1 : y < 59 + l
    · rw [if_pos h1] at hmd
      have hm := congrArg Prod.fst hmd
      have hd := congrArg Prod.snd hmd
      dsimp only at hm hd
      exact Or.inr (Or.inl ⟨by omega, by omega, by omega, by omega⟩)
    · rw [if_neg h1] at hmd
      by_cases h2 : y < 90 + l
      · rw [if_pos h2] at hmd
        have hm := congrArg Prod.fst hmd
        have hd := congrArg Prod.snd hmd
        dsimp only at hm hd
        exact Or.inr (Or.inr (Or.inl ⟨by omega, by omega, by omega, by omega⟩))
      · rw [if_neg h2] at hmd
        by_cases h3 : y < 120 + l
        · rw [if_pos h3] at hmd
          have hm := congrArg Prod.fst hmd
          have hd := congrArg Prod.snd hmd
          dsimp only at hm hd
          exact Or.inr (Or.inr (Or.inr (Or.inl ⟨by omega, by omega, by omega, by omega⟩)))
        · rw [if_neg h3] at hmd
          by_cases h4 : y < 151 + l
          · rw [if_pos h4] at hmd
            have hm := congrArg Prod.fst hmd
            have hd := congrArg Prod.snd hmd
            dsimp only at hm hd
            exact Or.inr (Or.inr (Or.inr (Or.inr (Or.inl ⟨by omega, by omega, by omega, by omega⟩))))
          · rw [if_neg h4] at hmd
            by_cases h5 : y < 181 + l
            · rw [if_pos h5] at hmd
              have hm := congrArg Prod.fst hmd
              have hd := congrArg Prod.snd hmd
              dsimp only at hm hd
              exact Or.inr (Or.inr (Or.inr (Or.inr (Or.inr (Or.inl ⟨by omega, by omega, by omega, by omega⟩)))))
            · rw [if_neg h5] at hmd
              by_cases h6 : y < 212 + l
              · rw [if_pos h6] at hmd
                have hm := congrArg Prod.fst hmd
                have hd := congrArg Prod.snd hmd
                dsimp only at hm hd
                exact Or.inr (Or.inr (Or.inr (Or.inr (Or.inr (Or.inr (Or.inl ⟨by omega, by omega, by omega, by omega⟩))))))
              · rw [if_neg h6] at hmd
                by_cases h7 : y < 243 + l
                · rw [if_pos h7] at hmd
                  have hm := congrArg Prod.fst hmd
                  have hd := congrArg Prod.snd hmd
                  dsimp only at hm hd
                  exact Or.inr (Or.inr (Or.inr (Or.inr (Or.inr (Or.inr (Or.inr (Or.inl ⟨by omega, by omega, by omega, by omega⟩)))))))
                · rw [if_neg h7] at hmd
                  by_cases h8 : y < 273 + l
                  · rw [if_pos h8] at hmd
                    have hm := congrArg Prod.fst hmd
                    have hd := congrArg Prod.snd hmd
                    dsimp only at hm hd
                    exact Or.inr (Or.inr (Or.inr (Or.inr (Or.inr (Or.inr (Or.inr (Or.inr (Or.inl ⟨by omega, by omega, by omega, by omega⟩))))))))
                  · rw [if_neg h8] at hmd
                    by_cases h9 : y < 304 + l
                    · rw [if_pos h9] at hmd
                      have hm := congrArg Prod.fst hmd
                      have hd := congrArg Prod.snd hmd
                      dsimp only at hm hd
                      exact Or.inr (Or.inr (Or.inr (Or.inr (Or.inr (Or.inr (Or.inr (Or.inr (Or.inr (Or.inl ⟨by omega, by omega, by omega, by omega⟩)))))))))
                    · rw [if_neg h9] at hmd
                      by_cases h10 : y < 334 + l
                      · rw [if_pos h10] at hmd
                        have hm := congrArg Prod.fst hmd
                        have hd := congrArg Prod.snd hmd
                        dsimp only at hm hd
                        exact Or.inr (Or.inr (Or.inr (Or.inr (Or.inr (Or.inr (Or.inr (Or.inr (Or.inr (Or.inr (Or.inl ⟨by omega, by omega, by omega, by omega⟩))))))))))
                      · rw [if_neg h10] at hmd
                        have hm := congrArg Prod.fst hmd
                        have hd := congrArg Prod.snd hmd
                        dsimp only at hm hd
                        exact Or.inr (Or.inr (Or.inr (Or.inr (Or.inr (Or.inr (Or.inr (Or.inr (Or.inr (Or.inr (Or.inr (⟨by omega, by omega, by omega⟩)))))))))))

theorem monthDay_mono (leap : Bool) (y1 y2 : Nat) (h : y1 < y2)
    (h2 : y2 < 365 + (if leap = true then 1 else 0)) :
    (monthDay leap y1).1 < (monthDay leap y2).1 ∨
      ((monthDay leap y1).1 = (monthDay leap y2).1 ∧
        (monthDay leap y1).2 < (monthDay leap y2).2) := by
  have s1 := monthDay_spec leap y1 _ (monthDay leap y1).1 (monthDay leap y1).2 rfl (by omega) rfl
  have s2 := monthDay_spec leap y2 _ (monthDay leap y2).1 (monthDay leap y2).2 rfl h2 rfl
  generalize (monthDay leap y1).1 = m1 at s1 ⊢
  generalize (monthDay leap y1).2 = d1 at s1 ⊢
  generalize (monthDay leap y2).1 = m2 at s2 ⊢
  generalize (monthDay leap y2).2 = d2 at s2 ⊢
  generalize (if leap = true then 1 else 0) = l at s1 s2 h2
  omega

theorem monthDay_range (leap : Bool) (y : Nat)
    (h : y < 365 + (if leap = true then 1 else 0)) :
    (monthDay leap y).1 < 10 ^ 2 ∧ (monthDay leap y).2 < 10 ^ 2 := by
  have s1 := monthDay_spec leap y _ (monthDay leap y).1 (monthDay leap y).2 rfl h rfl
  generalize (monthDay leap y).1 = m1 at s1 ⊢
  generalize (monthDay leap y).2 = d1 at s1 ⊢
  have hl : (if leap = true then 1 else 0) ≤ 1 := by split <;> omega
  generalize (if leap = true then 1 else 0) = l at s1 h hl
  omega

/-! ## The text of a timestamp follows the wall time -/

theorem appendInt_of_range (y : Int) (h0 : 0 ≤ y) (h1 : y ≤ 9999) :
    appendInt y 4 = lowDigits 4 y.natAbs := by
  unfold appendInt
  rw [if_neg (by omega), if_pos (by omega)]
  rfl

/-- Date and clock written as in `wallText`: a smaller date, or the same date
with a smaller clock, gives the earlier text. -/
theorem fields_below {y1 y2 mo1 mo2 d1 d2 h1 h2 mi1 mi2 s1 s2 : Nat}
    (hy : y2 < 10 ^ 4) (hmo : mo2 < 10 ^ 2) (hd : d2 < 10 ^ 2) (hh : h2 < 10 ^ 2)
    (hmi : mi2 < 10 ^ 2) (hs : s2 < 10 ^ 2)
    (h : y1 < y2 ∨ (y1 = y2 ∧ (mo1 < mo2 ∨ (mo1 = mo2 ∧ (d1 < d2 ∨ (d1 = d2 ∧
      (h1 < h2 ∨ (h1 = h2 ∧ (mi1 < mi2 ∨ (mi1 = mi2 ∧ s1 < s2)))))))))) :
    Below
      (lowDigits 4 y1 ++ '-' :: (lowDigits 2 mo1 ++ '-' :: (lowDigits 2 d1 ++ Char.ofNat 32 ::
        (lowDigits 2 h1 ++ ':' :: (lowDigits 2 mi1 ++ ':' :: lowDigits 2 s1)))))
      (lowDigits 4 y2 ++ '-' :: (lowDigits 2 mo2 ++ '-' :: (lowDigits 2 d2 ++ Char.ofNat 32 ::
        (lowDigits 2 h2 ++ ':' :: (lowDigits 2 mi2 ++ ':' :: lowDigits 2 s2))))) :=
  below_field 4 hy _ _ (h.imp_right (And.imp_right fun h =>
    Below.cons '-' (below_field 2 hmo _ _ (h.imp_right (And.imp_right fun h =>
      Below.cons '-' (below_field 2 hd _ _ (h.imp_right (And.imp_right fun h =>
        Below.cons (Char.ofNat 32) (below_field 2 hh _ _ (h.imp_right (And.imp_right fun h =>
          Below.cons ':' (below_field 2 hmi _ _ (h.imp_right (And.imp_right fun h =>
            Below.cons ':' (lowDigits_below_of_lt 2 h hs)))))))))))))))

/-- Within the years 1 to 9999 an earlier wall time is written as an earlier
text of date and clock. -/
theorem wallText_below (s1 s2 : Int) (h : s1 < s2) (h0 : 0 ≤ s1)
    (h1 : s2 < 3652059 * 86400) : Below (wallText s1) (wallText s2) := by
  have hy1 := absDate_year_range (s1 / 86400) (by omega) (by omega)
  have hy2 := absDate_year_range (s2 / 86400) (by omega) (by omega)
  have hyd1 := absDate_yday_lt (s1 / 86400)
  have hyd2 := absDate_yday_lt (s2 / 86400)
  have hr2 := monthDay_range _ _ hyd2
  unfold wallText
  dsimp only
  rw [appendInt_of_range _ (by omega) hy1.2, appendInt_of_range _ (by omega) hy2.2]
  refine fields_below (by omega) hr2.1 hr2.2 (by omega) (by omega) (by omega) ?_
  rcases Int.lt_or_le (s1 / 86400) (s2 / 86400) with hday | hday
  · rcases absDate_mono _ _ hday with hlt | ⟨heq, hlt⟩
    · exact Or.inl (by omega)
    · refine Or.inr ⟨by omega, ?_⟩
      rw [heq]
      rw [heq] at hyd1
      rcases monthDay_mono _ _ _ hlt hyd2 with hm | ⟨hm, hd⟩
      · exact Or.inl hm
      · exact Or.inr ⟨hm, Or.inl hd⟩
  · have hday' : s1 / 86400 = s2 / 86400 := by omega
    rw [hday']
    refine Or.inr ⟨rfl, Or.inr ⟨rfl, Or.inr ⟨rfl, ?_⟩⟩⟩
    omega

theorem zoneText_head (o : Int) : ∃ c z, zoneText o = c :: z ∧ c.toNat < 46 := by
  unfold zoneText
  dsimp only
  split
  · exact ⟨_, _, rfl, by decide⟩
  · exact ⟨_, _, rfl, by decide⟩

/-- Within one second and one zone, fewer nanoseconds give the earlier text. -/
theorem appendNano_below (o : Int) (n1 n2 : Nat) (h : n1 < n2) (h2 : n2 < 10 ^ 9) :
    Below (appendNano n1 ++ zoneText o) (appendNano n2 ++ zoneText o) := by
  obtain ⟨c, z, hz, hc⟩ := zoneText_head o
  rw [hz]
  unfold appendNano
  rw [if_neg (by omega : ¬ n2 = 0)]
  by_cases h0 : n1 = 0
  · rw [if_pos h0]
    exact Below.cons_lt (by simpa using hc) _ _
  · rw [if_neg h0]
    exact Below.cons '.' (trimZeros_below c (by omega) _ _
      (by rw [lowDigits_length, lowDigits_length]) (lowDigits_ge 9 n1) (lowDigits_ge 9 n2)
      (lowDigits_below_of_lt 9 h h2) z z)

/-- Two instants written in one zone, with wall times within the years 1 to
9999: the earlier instant gives the earlier text. -/
theorem sqliteTimestamp_below (o : Int) (a b : Int) (h : a < b)
    (h0 : 0 ≤ a / Second + o) (h1 : b / Second + o < 3652059 * 86400) :
    Below (sqliteTimestamp ⟨a, o⟩) (sqliteTimestamp ⟨b, o⟩) := by
  unfold sqliteTimestamp
  dsimp only
  unfold Second at h0 h1 ⊢
  rcases Int.lt_or_le (a / 1000000000) (b / 1000000000) with hs | hs
  · exact (wallText_below _ _ (by omega) h0 h1).append_right _ _
  · have hs' : a / 1000000000 = b / 1000000000 := by omega
    rw [hs']
    exact (appendNano_below o _ _ (by omega) (by omega)).append_left _

/-- SQLite's comparison of the texts of two instants bound in one zone is the
comparison of the instants, for wall times within the years 1 to 9999. -/
theorem textLE_sqliteTimestamp (o : Int) (a b : Int)
    (ha : 0 ≤ a / Second + o ∧ a / Second + o < 3652059 * 86400)
    (hb : 0 ≤ b / Second + o ∧ b / Second + o < 3652059 * 86400) :
    textLE (sqliteTimestamp ⟨a, o⟩) (sqliteTimestamp ⟨b, o⟩) = decide (a ≤ b) := by
  rcases lt_trichotomy a b with h | h | h
  · rw [(sqliteTimestamp_below o a b h ha.1 hb.2).le.1]
    exact (decide_eq_true (le_of_lt h)).symm
  · subst h
    rw [textLE_refl]
    exact (decide_eq_true (le_refl a)).symm
  · rw [(sqliteTimestamp_below o b a h hb.1 ha.2).le.2]
    exact (decide_eq_false (not_le.mpr h)).symm

/-- Whatever the zones, a text whose wall time is earlier by at least a second
is the earlier text. -/
theorem sqliteTimestamp_below_of_wall (s t : BoundTime)
    (h : s.instant / Second + s.offset < t.instant / Second + t.offset)
    (h0 : 0 ≤ s.instant / Second + s.offset)
    (h1 : t.instant / Second + t.offset < 3652059 * 86400) :
    Below (sqliteTimestamp s) (sqliteTimestamp t) :=
  (wallText_below _ _ h h0 h1).append_right _ _

/-! ## Date-range retrieval -/

theorem wall_range_utc (t : Int) (h0 : 0 ≤ t) (h1 : t < endOfYear9999) :
    0 ≤ t / Second + 0 ∧ t / Second + 0 < 3652059 * 86400 := by
  unfold endOfYear9999 Hour Minute Second at h1
  unfold Second
  omega

theorem day_bounds (m : Int) (h0 : 0 ≤ m)
    (h1 : m + (23 * Hour + 59 * Minute + 59 * Second) < endOfYear9999) :
    0 ≤ m + (23 * Hour + 59 * Minute + 59 * Second) ∧ m < endOfYear9999 := by
  unfold endOfYear9999 Hour Minute Second at *
  omega

/-- When the stored rows carry the zone UTC, as both bounds do, and all times
lie in the years 1 to 9999, the range query selects by the instants. -/
theorem SelectAppealsByDates_utc (loc : Location) (repo : AppealRepository)
    (start endT : Time) (hzone : ∀ row ∈ repo, loc row.CreatedAt = 0)
    (hstart : 0 ≤ start ∧ start < endOfYear9999) (hend : 0 ≤ endT ∧ endT < endOfYear9999)
    (hrows : ∀ row ∈ repo, 0 ≤ row.CreatedAt ∧ row.CreatedAt < endOfYear9999) :
    AppealRepository.SelectAppealsByDates loc repo ⟨start, 0⟩ ⟨endT, 0⟩ =
      .ok (repo.filter (fun row => decide (start ≤ row.CreatedAt ∧ row.CreatedAt ≤ endT))) := by
  unfold AppealRepository.SelectAppealsByDates
  congr 1
  apply List.filter_congr
  intro row hmem
  have hr := wall_range_utc row.CreatedAt (hrows row hmem).1 (hrows row hmem).2
  have hs := wall_range_utc start hstart.1 hstart.2
  have he := wall_range_utc endT hend.1 hend.2
  rw [hzone row hmem, textLE_sqliteTimestamp 0 start row.CreatedAt hs hr,
    textLE_sqliteTimestamp 0 row.CreatedAt endT hr he, Bool.decide_and]

/-- C12, as stated, fails: `AppealService.GetAppealsByDates` does not widen its
end.  Called with the midnight 0 (UTC) as start and as end, on a server whose
zone is UTC, it returns nothing although the table holds an appeal created at
noon of that day. -/
theorem GetAppealsByDates_not_widened :
    (0 : Time) ≤ (testAppeal (12 * Hour)).CreatedAt ∧
    (testAppeal (12 * Hour)).CreatedAt ≤ 0 + (23 * Hour + 59 * Minute + 59 * Second) ∧
    AppealService.GetAppealsByDates UTC [testAppeal (12 * Hour)] ⟨0, 0⟩ ⟨0, 0⟩ = .ok [] :=
  ⟨by decide, by decide, rfl⟩

/-- C12, amended: the widening is done by the request handler, and the store
compares the texts the driver binds.  For a day text `d` that `time.Parse` reads
as the midnight `m` (UTC), `Handlers.GetAppealsByDates` with startDate =
endDate = `d` adds 23h59m59s to the end; when the stored `createdAt` values
carry the zone UTC, as the two bounds do, and all times lie in the years 1 to
9999, it answers with exactly the stored appeals created within
[m, m + 23:59:59], in table order.  Under the same conditions
`AppealService.GetAppealsByDates`, which does not widen, returns exactly the
stored appeals created within the interval it is given. -/
theorem Handlers_GetAppealsByDates_same_day (loc : Location)
    (timeParse : String → Except String Time) (repo : AppealRepository) (d : String)
    (m : Time) (hd : d ≠ "") (hp : timeParse d = .ok m)
    (hzone : ∀ row ∈ repo, loc row.CreatedAt = 0)
    (hday : 0 ≤ m ∧ m + (23 * Hour + 59 * Minute + 59 * Second) < endOfYear9999)
    (hrows : ∀ row ∈ repo, 0 ≤ row.CreatedAt ∧ row.CreatedAt < endOfYear9999) :
    (∃ appeals, Handlers.GetAppealsByDates loc timeParse repo d d = .StatusOK appeals ∧
      appeals = repo.filter (fun row =>
        decide (m ≤ row.CreatedAt ∧ row.CreatedAt ≤ m + (23 * Hour + 59 * Minute + 59 * Second))) ∧
      ∀ row, row ∈ appeals ↔
        row ∈ repo ∧ m ≤ row.CreatedAt ∧
          row.CreatedAt ≤ m + (23 * Hour + 59 * Minute + 59 * Second)) ∧
    (∀ (start endT : Time), (0 ≤ start ∧ start < endOfYear9999) →
      (0 ≤ endT ∧ endT < endOfYear9999) → ∀ row : Appeal,
      (∃ appeals, AppealService.GetAppealsByDates loc repo ⟨start, 0⟩ ⟨endT, 0⟩ = .ok appeals ∧
        row ∈ appeals) ↔
      row ∈ repo ∧ start ≤ row.CreatedAt ∧ row.CreatedAt ≤ endT) := by
  obtain ⟨hend, hstart⟩ := day_bounds m hday.1 hday.2
  refine ⟨⟨_, ?_, rfl, ?_⟩, ?_⟩
  · unfold Handlers.GetAppealsByDates AppealService.GetAppealsByDates
    simp only [hd, or_self, if_false, hp]
    rw [SelectAppealsByDates_utc loc repo m _ hzone ⟨hday.1, hstart⟩ ⟨hend, hday.2⟩ hrows]
  · intro row
    simp
  · intro start endT hs he row
    unfold AppealService.GetAppealsByDates
    rw [SelectAppealsByDates_utc loc repo start endT hzone hs he hrows]
    constructor
    · rintro ⟨appeals, hok, hmem⟩
      cases hok
      simpa using hmem
    · intro h
      exact ⟨_, rfl, by simpa using h⟩

/-- A concrete reading of `Handlers_GetAppealsByDates_same_day`: a server in
UTC, the day "0001-01-01", whose midnight is the zero time, with one appeal
created at noon of that day and one created at noon of the next. -/
theorem Handlers_GetAppealsByDates_same_day_witness :
    sampleParse "0001-01-01" = .ok 0 ∧
    Handlers.GetAppealsByDates UTC sampleParse
      [testAppeal (12 * Hour), testAppeal (36 * Hour)] "0001-01-01" "0001-01-01" =
        .StatusOK [testAppeal (12 * Hour)] ∧
    ∃ appeals, Handlers.GetAppealsByDates UTC sampleParse
        [testAppeal (12 * Hour), testAppeal (36 * Hour)] "0001-01-01" "0001-01-01" =
          .StatusOK appeals ∧
      appeals = [testAppeal (12 * Hour), testAppeal (36 * Hour)].filter (fun row =>
        decide (0 ≤ row.CreatedAt ∧
          row.CreatedAt ≤ 0 + (23 * Hour + 59 * Minute + 59 * Second))) ∧
      ∀ row, row ∈ appeals ↔
        row ∈ [testAppeal (12 * Hour), testAppeal (36 * Hour)] ∧ 0 ≤ row.CreatedAt ∧
          row.CreatedAt ≤ 0 + (23 * Hour + 59 * Minute + 59 * Second) :=
  ⟨rfl, by decide,
    (Handlers_GetAppealsByDates_same_day UTC sampleParse
      [testAppeal (12 * Hour), testAppeal (36 * Hour)] "0001-01-01" 0 (by decide) rfl
      (fun _ _ => rfl) (by decide) (by decide)).1⟩

/-- The zone matters.  On a server 14 hours east of UTC an appeal created at
12:00 UTC of the day is stored under the next day and is not returned; on a
server 12 hours west an appeal created at 06:00 UTC of the next day is stored
under the day and is returned. -/
theorem Handlers_GetAppealsByDates_other_zone :
    Handlers.GetAppealsByDates (FixedZone (14 * 3600)) sampleParse
      [testAppeal (12 * Hour)] "0001-01-01" "0001-01-01" = .StatusOK [] ∧
    Handlers.GetAppealsByDates (FixedZone (-(12 * 3600))) sampleParse
      [testAppeal (30 * Hour)] "0001-01-01" "0001-01-01" =
        .StatusOK [testAppeal (30 * Hour)] := by
  decide

/-- C13, the code at the failing input: two appeals whose `CreatedAt` (noon and
18:00 of the day starting at 0) lie within [0, 23:59:59] are saved, both
successfully, while the clock reads 48h; `Save` stores the clock reading as
`created_at`, and `SelectAppealsByDates` over the day, with bounds in UTC as in
the repository test, returns no record: on a server in UTC, and as well on
servers 14 hours east and 12 hours west of it. -/
theorem SelectAppealsByDates_after_Save_misses :
    ((0 : Time) ≤ (testAppeal (12 * Hour)).CreatedAt ∧
      (testAppeal (12 * Hour)).CreatedAt ≤ 23 * Hour + 59 * Minute + 59 * Second) ∧
    ((0 : Time) ≤ (testAppeal (18 * Hour)).CreatedAt ∧
      (testAppeal (18 * Hour)).CreatedAt ≤ 23 * Hour + 59 * Minute + 59 * Second) ∧
    (AppealRepository.Save [] nilUUID (48 * Hour) (48 * Hour) (testAppeal (12 * Hour))).1 =
      .ok { testAppeal (48 * Hour) with ID := nilUUID.String } ∧
    (AppealRepository.Save
      (AppealRepository.Save [] nilUUID (48 * Hour) (48 * Hour) (testAppeal (12 * Hour))).2
      oneUUID (48 * Hour) (48 * Hour) (testAppeal (18 * Hour))).1 =
      .ok { testAppeal (48 * Hour) with ID := oneUUID.String } ∧
    AppealRepository.SelectAppealsByDates UTC
      (AppealRepository.Save
        (AppealRepository.Save [] nilUUID (48 * Hour) (48 * Hour) (testAppeal (12 * Hour))).2
        oneUUID (48 * Hour) (48 * Hour) (testAppeal (18 * Hour))).2
      ⟨0, 0⟩ ⟨23 * Hour + 59 * Minute + 59 * Second, 0⟩ = .ok [] ∧
    AppealRepository.SelectAppealsByDates (FixedZone (14 * 3600))
      (AppealRepository.Save
        (AppealRepository.Save [] nilUUID (48 * Hour) (48 * Hour) (testAppeal (12 * Hour))).2
        oneUUID (48 * Hour) (48 * Hour) (testAppeal (18 * Hour))).2
      ⟨0, 0⟩ ⟨23 * Hour + 59 * Minute + 59 * Second, 0⟩ = .ok [] ∧
    AppealRepository.SelectAppealsByDates (FixedZone (-(12 * 3600)))
      (AppealRepository.Save
        (AppealRepository.Save [] nilUUID (48 * Hour) (48 * Hour) (testAppeal (12 * Hour))).2
        oneUUID (48 * Hour) (48 * Hour) (testAppeal (18 * Hour))).2
      ⟨0, 0⟩ ⟨23 * Hour + 59 * Minute + 59 * Second, 0⟩ = .ok [] :=
  ⟨by decide, by decide, rfl, rfl, rfl, rfl, rfl⟩

end GoAppeals
